import Mathlib

/-!
Verification of the running-data reconciliation pipeline (`sync.py`) and its
statistics engine (`render.py`).

The Python source is shallowly embedded: dictionaries become a fixed `Record`
structure, Python floats become exact rationals (`ℚ`), Python ints become `ℤ`
or `ℕ`, fallible code returns `Option`/`Except` (`none`/`.error` marks an
uncaught Python exception), and file/network I/O is dropped — each function is
modelled as the pure function from its already-read input to the data it
computes or writes.  `datetime.fromisoformat` (the stdlib ISO-8601 fallback of
`parse_datetime_safe`) is an external library call; definitions take it as an
explicit parameter `iso`, and theorems quantify over it where possible.
Binary-float rounding inside Python's `round`/format specifiers is idealised
as exact rational rounding (round-half-to-even, as CPython documents).
-/

/-! ## Basic character and string utilities (Python semantics) -/

/-- The ASCII whitespace characters recognised by `str.strip`/`str.split`
and by the `\s` class used for literal spaces in `strptime` formats. -/
def isPySpace (c : Char) : Bool :=
  c = ' ' || c = '\t' || c = '\n' || c = '\x0d' || c = '\x0b' || c = '\x0c'

/-- `str.rstrip()`: drop trailing whitespace. -/
def pyRstrip (cs : List Char) : List Char :=
  (cs.reverse.dropWhile isPySpace).reverse

/-- `str.strip()`: drop leading and trailing whitespace. -/
def pyStrip (cs : List Char) : List Char :=
  (pyRstrip cs).dropWhile isPySpace

/-- `str.split(sep)` with an explicit one-character separator: split at every
occurrence, keeping empty fields (Python keeps them for an explicit sep). -/
def splitOnCh (sep : Char) : List Char → List (List Char)
  | [] => [[]]
  | c :: cs =>
    let rest := splitOnCh sep cs
    if c = sep then [] :: rest
    else
      match rest with
      | [] => [[c]]
      | t :: ts => (c :: t) :: ts

/-- `sep.join(fields)` for a one-character separator. -/
def joinCh (sep : Char) : List (List Char) → List Char
  | [] => []
  | [f] => f
  | f :: fs => f ++ sep :: joinCh sep fs

/-- Helper for `pyWords`: the word collected so far is carried reversed. -/
def pyWordsAux : List Char → List Char → List (List Char)
  | [], acc => if acc.isEmpty then [] else [acc.reverse]
  | c :: cs, acc =>
    if isPySpace c then
      if acc.isEmpty then pyWordsAux cs [] else acc.reverse :: pyWordsAux cs []
    else pyWordsAux cs (c :: acc)

/-- `str.split()` with no argument: split on runs of whitespace, discarding
empty fields. -/
def pyWords (cs : List Char) : List (List Char) := pyWordsAux cs []

/-- ASCII `str.lower()`. -/
def pyLower (cs : List Char) : List Char :=
  cs.map fun c => if 'A' ≤ c ∧ c ≤ 'Z' then Char.ofNat (c.toNat + 32) else c

/-! ## Digit parsing and decimal formatting -/

/-- Digit value of an ASCII digit character. -/
def digitVal (c : Char) : ℕ := c.toNat - '0'.toNat

/-- Whether every character of the (nonempty) token is an ASCII digit. -/
def allDigits (cs : List Char) : Bool :=
  !cs.isEmpty && cs.all Char.isDigit

/-- Numeric value of an all-digit token. -/
def digitsToNat (cs : List Char) : ℕ :=
  cs.foldl (fun acc c => acc * 10 + digitVal c) 0

/-- Decimal digit characters of a natural number, most significant first
(fuel-based so it kernel-reduces). -/
def natCharsAux : ℕ → ℕ → List Char → List Char
  | 0, _, acc => acc
  | fuel + 1, n, acc =>
    if n < 10 then Char.ofNat ('0'.toNat + n) :: acc
    else natCharsAux fuel (n / 10) (Char.ofNat ('0'.toNat + n % 10) :: acc)

/-- Decimal representation of a natural number (what `"%d"` prints for `n ≥ 0`). -/
def natChars (n : ℕ) : List Char := natCharsAux (n + 1) n []

/-- `"%d"` formatting of a Python int. -/
def intChars (n : ℤ) : List Char :=
  if n < 0 then '-' :: natChars n.natAbs else natChars n.natAbs

/-- Left-pad with `'0'` to a minimum width (Python `"%02d"` etc. for
non-negative values). -/
def padZero (w : ℕ) (cs : List Char) : List Char :=
  List.replicate (w - cs.length) '0' ++ cs

/-! ## Python numeric semantics -/

/-- Python 3 `round(q)`: round half to even, returning an int. -/
def pyRound (q : ℚ) : ℤ :=
  if q - ⌊q⌋ < 1/2 then ⌊q⌋
  else if 1/2 < q - ⌊q⌋ then ⌊q⌋ + 1
  else if ⌊q⌋ % 2 = 0 then ⌊q⌋ else ⌊q⌋ + 1

/-- Python `round(q, 1)`: round half to even at one decimal place. -/
def pyRound1 (q : ℚ) : ℚ := (pyRound (q * 10) : ℚ) / 10

/-- Python `divmod` on ints (floor division). -/
def pyDivMod (a b : ℤ) : ℤ × ℤ := (Int.fdiv a b, Int.fmod a b)

/-- Split an optional leading sign (`true` = negative) off a stripped
numeric token. -/
def splitSign : List Char → Bool × List Char
  | [] => (false, [])
  | c :: r =>
    if c = '-' then (true, r) else if c = '+' then (false, r) else (false, c :: r)

/-- The token-shape analysis of `float(token)`: sign, integer-part value,
fraction-part value and fraction digit count.  Kept at the character/ℕ level
(separately from the ℚ value below) so it is kernel-decidable. -/
def floatShape (cs : List Char) : Option (Bool × ℕ × ℕ × ℕ) :=
  let (neg, body) := splitSign (pyStrip cs)
  match splitOnCh '.' body with
  | [ip] => if allDigits ip then some (neg, digitsToNat ip, 0, 0) else none
  | [ip, fp] =>
    if allDigits ip && allDigits fp then
      some (neg, digitsToNat ip, digitsToNat fp, fp.length)
    else if allDigits ip && fp.isEmpty then some (neg, digitsToNat ip, 0, 0)
    else if ip.isEmpty && allDigits fp then
      some (neg, 0, digitsToNat fp, fp.length)
    else none
  | _ => none

/-- `float(token)`: accepts optional surrounding whitespace, an optional
sign, and a finite decimal `digits[.digits]` / `.digits` / `digits.` form.
(The exotic `float` forms — exponents, `inf`/`nan`, underscores — are not
modelled; no input exercised by the pipeline uses them.) -/
def pyFloat (cs : List Char) : Option ℚ :=
  (floatShape cs).map fun t =>
    (if t.1 then -1 else 1) * ((t.2.1 : ℚ) + (t.2.2.1 : ℚ) / 10 ^ t.2.2.2)

/-- `int(token)`: optional surrounding whitespace, optional sign, digits. -/
def pyInt (cs : List Char) : Option ℤ :=
  let (neg, body) := splitSign (pyStrip cs)
  if allDigits body then
    some (if neg then -(digitsToNat body : ℤ) else (digitsToNat body : ℤ))
  else none

/-- Python truthiness of a string: non-empty. -/
def pyTruthy (cs : List Char) : Bool := !cs.isEmpty

/-- `f"{q:.2f}"`: fixed-point with two decimals (round half to even,
idealised over ℚ). -/
def fmtFixed2 (q : ℚ) : List Char :=
  let n : ℤ := pyRound (q * 100)
  let sign : List Char := if n < 0 then ['-'] else []
  sign ++ natChars (n.natAbs / 100) ++ '.' :: padZero 2 (natChars (n.natAbs % 100))

/-! ## Calendar arithmetic (`calendar.monthrange`) -/

/-- Gregorian leap year. -/
def isLeap (y : ℕ) : Bool := y % 4 = 0 && (y % 100 ≠ 0 || y % 400 = 0)

/-- `calendar.monthrange(y, m)[1]`: number of days in month `m` of year `y`. -/
def daysInMonth (y m : ℕ) : ℕ :=
  if m = 2 then (if isLeap y then 29 else 28)
  else if m = 4 ∨ m = 6 ∨ m = 9 ∨ m = 11 then 30
  else 31

/-! ## Datetime values and their total order -/

/-- A Python `datetime.datetime` value (fields as stored; the stdlib
guarantees field validity for values it constructs). -/
structure DateTime where
  year : ℕ
  month : ℕ
  day : ℕ
  hour : ℕ
  minute : ℕ
  second : ℕ
  deriving DecidableEq, Repr

/-- Lexicographic `≤` on equal-length numeric field lists — the comparison
Python uses between `datetime` objects. -/
def natLexLe : List ℕ → List ℕ → Bool
  | [], _ => true
  | _ :: _, [] => false
  | a :: as, b :: bs =>
    if a < b then true else if b < a then false else natLexLe as bs

theorem natLexLe_cons {a b : ℕ} {as bs : List ℕ} :
    natLexLe (a :: as) (b :: bs) = true ↔
      a < b ∨ (a = b ∧ natLexLe as bs = true) := by
  simp only [natLexLe]
  rcases Nat.lt_trichotomy a b with h | h | h
  · simp [h]
  · subst h; simp
  · simp [h, Nat.lt_asymm h, Nat.ne_of_gt h]

theorem natLexLe_trans : ∀ {x y z : List ℕ},
    natLexLe x y = true → natLexLe y z = true → natLexLe x z = true
  | [], _, _, _, _ => rfl
  | _ :: _, [], _, h, _ => by simp [natLexLe] at h
  | _ :: _, _ :: _, [], _, h => by simp [natLexLe] at h
  | a :: as, b :: bs, c :: cs, h1, h2 => by
    rw [natLexLe_cons] at h1 h2 ⊢
    rcases h1 with h1 | ⟨rfl, h1⟩
    · rcases h2 with h2 | ⟨rfl, h2⟩
      · exact Or.inl (Nat.lt_trans h1 h2)
      · exact Or.inl h1
    · rcases h2 with h2 | ⟨rfl, h2⟩
      · exact Or.inl h2
      · exact Or.inr ⟨rfl, natLexLe_trans h1 h2⟩

theorem natLexLe_total : ∀ (x y : List ℕ),
    natLexLe x y = true ∨ natLexLe y x = true
  | [], _ => Or.inl rfl
  | _ :: _, [] => Or.inr rfl
  | a :: as, b :: bs => by
    rw [natLexLe_cons, natLexLe_cons]
    rcases Nat.lt_trichotomy a b with h | h | h
    · exact Or.inl (Or.inl h)
    · subst h
      rcases natLexLe_total as bs with h' | h'
      · exact Or.inl (Or.inr ⟨rfl, h'⟩)
      · exact Or.inr (Or.inr ⟨rfl, h'⟩)
    · exact Or.inr (Or.inl h)

theorem natLexLe_antisymm : ∀ {x y : List ℕ},
    natLexLe x y = true → natLexLe y x = true → x = y
  | [], [], _, _ => rfl
  | [], _ :: _, _, h => by simp [natLexLe] at h
  | _ :: _, [], h, _ => by simp [natLexLe] at h
  | a :: as, b :: bs, h1, h2 => by
    rw [natLexLe_cons] at h1 h2
    rcases h1 with h1 | ⟨rfl, h1⟩
    · rcases h2 with h2 | ⟨h2, _⟩ <;> omega
    · rcases h2 with h2 | ⟨_, h2⟩
      · omega
      · exact congrArg (a :: ·) (natLexLe_antisymm h1 h2)

/-- The field list a `datetime` comparison inspects, most significant first. -/
def DateTime.fields (d : DateTime) : List ℕ :=
  [d.year, d.month, d.day, d.hour, d.minute, d.second]

/-- `datetime` comparison: lexicographic on the fields. -/
def DateTime.le (a b : DateTime) : Bool := natLexLe a.fields b.fields

theorem DateTime.fields_inj {a b : DateTime} (h : a.fields = b.fields) :
    a = b := by
  cases a; cases b
  simp only [DateTime.fields, List.cons.injEq, and_true] at h
  obtain ⟨h1, h2, h3, h4, h5, h6⟩ := h
  subst h1; subst h2; subst h3; subst h4; subst h5; subst h6; rfl

theorem DateTime.le_trans {a b c : DateTime} (h1 : DateTime.le a b = true)
    (h2 : DateTime.le b c = true) : DateTime.le a c = true :=
  natLexLe_trans h1 h2

theorem DateTime.le_total (a b : DateTime) :
    DateTime.le a b = true ∨ DateTime.le b a = true :=
  natLexLe_total _ _

theorem DateTime.le_antisymm {a b : DateTime} (h1 : DateTime.le a b = true)
    (h2 : DateTime.le b a = true) : a = b :=
  DateTime.fields_inj (natLexLe_antisymm h1 h2)

/-! ## `datetime.strptime` for the formats used by the pipeline

CPython compiles each directive to a regex: `%Y` is exactly four digits,
`%m`/`%d`/`%H`/`%M`/`%S` are one or two digits restricted to their calendar
range, a literal space matches a run of whitespace, other literals match
themselves, and the whole input must be consumed.  The `datetime` constructor
then re-checks: year ≥ 1 and day ≤ days of the month (a leap-second `%S`
match of 60/61 is likewise rejected there, so `≤ 59` is the net bound). -/

/-- One numeric 1–2 digit field with an inclusive value range. -/
def fieldNat (lo hi : ℕ) (cs : List Char) : Option ℕ :=
  if allDigits cs ∧ cs.length ≤ 2 ∧ lo ≤ digitsToNat cs ∧ digitsToNat cs ≤ hi
  then some (digitsToNat cs) else none

/-- The `%Y` field: exactly four digits; the constructor requires year ≥ 1. -/
def fieldYear (cs : List Char) : Option ℕ :=
  if allDigits cs ∧ cs.length = 4 ∧ 1 ≤ digitsToNat cs
  then some (digitsToNat cs) else none

/-- `%Y<sep>%m<sep>%d` (with `sep` being `-` or `/`), including the
constructor's day-of-month validation. -/
def parseDatePart (sep : Char) (cs : List Char) : Option (ℕ × ℕ × ℕ) :=
  match splitOnCh sep cs with
  | [ys, ms, ds] => do
    let y ← fieldYear ys
    let m ← fieldNat 1 12 ms
    let d ← fieldNat 1 31 ds
    if d ≤ daysInMonth y m then some (y, m, d) else none
  | _ => none

/-- `%H:%M:%S`. -/
def parseTimePart (cs : List Char) : Option (ℕ × ℕ × ℕ) :=
  match splitOnCh ':' cs with
  | [hs, ms, ss] => do
    let h ← fieldNat 0 23 hs
    let mi ← fieldNat 0 59 ms
    let s ← fieldNat 0 59 ss
    some (h, mi, s)
  | _ => none

/-- `datetime.strptime(s, "%Y<sep>%m<sep>%d %H:%M:%S")` (`none` = `ValueError`). -/
def strpDateTime (sep : Char) (cs : List Char) : Option DateTime := do
  let datePart := cs.takeWhile (fun c => !isPySpace c)
  let rest := cs.dropWhile (fun c => !isPySpace c)
  let timePart := rest.dropWhile isPySpace
  if rest.isEmpty then none
  else do
    let (y, mo, d) ← parseDatePart sep datePart
    let (h, mi, s) ← parseTimePart timePart
    some ⟨y, mo, d, h, mi, s⟩

/-- `datetime.strptime(s, "%Y<sep>%m<sep>%d")` (midnight time fields). -/
def strpDateOnly (sep : Char) (cs : List Char) : Option DateTime :=
  (parseDatePart sep cs).map fun t => ⟨t.1, t.2.1, t.2.2, 0, 0, 0⟩

/-- `sync.parse_datetime_safe`: empty string short-circuits to `None`; then
the four accepted formats are tried in order (first success wins); then the
generic ISO-8601 fallback `datetime.fromisoformat`, passed in as `iso`. -/
def parse_datetime_safe (iso : List Char → Option DateTime)
    (s : List Char) : Option DateTime :=
  if s.isEmpty then none
  else match strpDateTime '-' s with
  | some d => some d
  | none => match strpDateTime '/' s with
    | some d => some d
    | none => match strpDateOnly '-' s with
      | some d => some d
      | none => match strpDateOnly '/' s with
        | some d => some d
        | none => iso s

/-- Modelled from the spec: a concrete stand-in for the stdlib
`datetime.fromisoformat` ("a generic ISO-8601 fallback"), accepting the
canonical `YYYY-MM-DDTHH:MM:SS` form.  It is used only to instantiate
closed statements whose inputs never reach the fallback; theorems about the
pipeline quantify over the fallback function. -/
def isoModel (cs : List Char) : Option DateTime :=
  match splitOnCh 'T' cs with
  | [datePart, timePart] => do
    let (y, mo, d) ← parseDatePart '-' datePart
    let (h, mi, s) ← parseTimePart timePart
    some ⟨y, mo, d, h, mi, s⟩
  | _ => none

/-! ## The canonical Record (`sync.py` dictionaries)

Both adapters (`parse_mi_records` and `parse_activity`) build dictionaries
with the same keys; the fields below carry exactly the values the claims'
functions read (`average_speed` and `summary_polyline`, which no statistic,
merge step or export reads, are not modelled — `average_speed` even holds a
string in one adapter and a float in the other). -/

structure Record where
  run_id : ℤ
  name : List Char
  distance : ℚ
  moving_time : ℚ
  elapsed_time : ℚ
  activity_type : List Char
  start_date : List Char
  start_date_local : List Char
  location_country : Option (List Char)
  average_heartrate : Option ℤ
  pace : Option (List Char)
  source : List Char
  deriving DecidableEq, Repr

/-- `sync.calculate_pace`: `None` when distance or moving time is falsy,
else `"M:SS"` of the rounded seconds-per-kilometre. -/
def calculate_pace (distance_m moving_time_s : ℚ) : Option (List Char) :=
  if distance_m = 0 ∨ moving_time_s = 0 then none
  else
    let pace_sec_per_km := moving_time_s / (distance_m / 1000)
    let total_seconds := pyRound pace_sec_per_km
    let md := pyDivMod total_seconds 60
    some (intChars md.1 ++ ':' :: padZero 2 (natChars md.2.natAbs))

/-! ## `sync.py`: exporter, adapter, reconciler -/

/-- Python `a or b` on strings: `a` unless it is falsy (empty). -/
def pyOrStr (a b : List Char) : List Char := if pyTruthy a then a else b

/-- Python `x or d` where `x` is an optional string (dict `get`):
`d` when the value is missing or empty. -/
def pyOrOptStr (a : Option (List Char)) (d : List Char) : List Char :=
  match a with
  | some s => pyOrStr s d
  | none => d

/-- The string `r.get("start_date_local") or r.get("start_date") or ""`
used by the exporter, the reconciler and the SVG renderer. -/
def recDateStr (r : Record) : List Char :=
  pyOrStr r.start_date_local (pyOrStr r.start_date [])

/-- The header row `export_csv` writes. -/
def csvHeader : List (List Char) :=
  ["DT".data, "distance(Km)".data, "heart".data, "pace".data]

/-- One data row of `export_csv`: timestamp string, distance in km fixed to
two decimals, the constant heart placeholder `120`, and the pace string or
the `"-"` sentinel. -/
def csvRow (r : Record) : List (List Char) :=
  [recDateStr r,
   fmtFixed2 ((if r.distance = 0 then 0 else r.distance) / 1000),
   natChars 120,
   pyOrOptStr r.pace ['-']]

/-- `sync.export_csv`: the rows written to the CSV file; `none` when the
record list is empty (the function returns without writing anything). -/
def export_csv (records : List Record) : Option (List (List (List Char))) :=
  if records.isEmpty then none
  else some (csvHeader :: records.map csvRow)

/-- `moving_time` parsing inside `parse_mi_records`: `mm:ss` or `hh:mm:ss`,
else a raw-seconds numeric fallback (`int(float(mt))`, truncating toward
zero), else `0` (every exception path sets `0`). -/
def parseMovingTime (mt : List Char) : ℤ :=
  match splitOnCh ':' mt with
  | [a, b] =>
    match pyInt a, pyInt b with
    | some x, some y => x * 60 + y
    | _, _ => 0
  | [a, b, c] =>
    match pyInt a, pyInt b, pyInt c with
    | some x, some y, some z => x * 3600 + y * 60 + z
    | _, _, _ => 0
  | _ =>
    match pyFloat mt with
    | some q => Int.tdiv q.num q.den
    | none => 0

/-- One data line of the history export, given the synthetic id to assign:
`none` when the line is skipped (fewer than 8 whitespace tokens, or an
unparsable distance). -/
def parse_mi_line (r_id : ℤ) (line : List Char) : Option Record :=
  let parts := pyWords line
  if parts.length < 8 then none
  else
    match pyFloat parts[1]! with
    | none => none
    | some dist0 =>
      let distance := pyRound1 (dist0 * 1000)
      let moving_time := parseMovingTime parts[2]!
      let start_date := parts[3]! ++ ' ' :: parts[4]!
      some
        { run_id := r_id
          name := parts[0]!
          distance := distance
          moving_time := (moving_time : ℚ)
          elapsed_time := (moving_time : ℚ)
          activity_type := "Run".data
          start_date := start_date
          start_date_local := start_date
          location_country := some parts[5]!
          average_heartrate :=
            if pyLower parts[6]! = "null".data then none else pyInt parts[6]!
          pace := calculate_pace distance (moving_time : ℚ)
          source := "mi".data }

/-- The body loop of `parse_mi_records`: sequential ids, incremented only
when a line is actually kept. -/
def parseMiLines (r_id : ℤ) : List (List Char) → List Record
  | [] => []
  | l :: ls =>
    match parse_mi_line r_id l with
    | none => parseMiLines r_id ls
    | some r => r :: parseMiLines (r_id + 1) ls

/-- `sync.parse_mi_records` on the history file's lines: the first line is a
header and is discarded; a file with at most the header yields no records;
synthetic ids start at 100000. -/
def parse_mi_records (lines : List (List Char)) : List Record :=
  if lines.length ≤ 1 then [] else parseMiLines 100000 (lines.drop 1)

/-- The sort key of `merge_and_write.key_func`: `(0, parsed datetime)` for a
dated record, `(1, run_id)` for an undated one. -/
def mergeKey (iso : List Char → Option DateTime) (r : Record) : DateTime ⊕ ℤ :=
  match parse_datetime_safe iso (recDateStr r) with
  | some dt => Sum.inl dt
  | none => Sum.inr r.run_id

/-- Comparison of two sort keys, as Python compares the `(0, dt)`/`(1, id)`
tuples: every dated key precedes every undated key. -/
def keyLe : DateTime ⊕ ℤ → DateTime ⊕ ℤ → Bool
  | Sum.inl a, Sum.inl b => DateTime.le a b
  | Sum.inl _, Sum.inr _ => true
  | Sum.inr _, Sum.inl _ => false
  | Sum.inr a, Sum.inr b => decide (a ≤ b)

theorem keyLe_trans {a b c : DateTime ⊕ ℤ} (h1 : keyLe a b = true)
    (h2 : keyLe b c = true) : keyLe a c = true := by
  cases a <;> cases b <;> cases c <;> simp_all [keyLe]
  · exact DateTime.le_trans h1 h2
  · omega

theorem keyLe_total (a b : DateTime ⊕ ℤ) :
    keyLe a b = true ∨ keyLe b a = true := by
  cases a <;> cases b <;> simp_all [keyLe]
  · exact DateTime.le_total _ _
  · omega

theorem keyLe_antisymm {a b : DateTime ⊕ ℤ} (h1 : keyLe a b = true)
    (h2 : keyLe b a = true) : a = b := by
  cases a <;> cases b <;> simp_all [keyLe]
  · exact DateTime.le_antisymm h1 h2
  · omega

/-- `sync.merge_and_write`: concatenate the two adapters' outputs and sort
by `key_func` (Python's `sorted` is a stable merge sort). -/
def merge_and_write (iso : List Char → Option DateTime)
    (mi_recs strava_recs : List Record) : List Record :=
  (mi_recs ++ strava_recs).mergeSort
    (fun a b => keyLe (mergeKey iso a) (mergeKey iso b))

/-! ## `render.py`: the statistics engine -/

/-- Append a value to the entry of a key in an insertion-ordered dict of
lists (`grouped_data[key].append(item)` / first insertion). -/
def dictAppend {κ α : Type} [DecidableEq κ] :
    List (κ × List α) → κ → α → List (κ × List α)
  | [], k, a => [(k, [a])]
  | (k', l) :: rest, k, a =>
    if k = k' then (k', l ++ [a]) :: rest
    else (k', l) :: dictAppend rest k a

/-- Dict lookup (`d[k]` / `k in d`). -/
def dictFind {κ β : Type} [DecidableEq κ] : List (κ × β) → κ → Option β
  | [], _ => none
  | (k', v) :: rest, k => if k = k' then some v else dictFind rest k

/-- `render.groupby`: insertion-ordered grouping of a list by a key. -/
def groupby {κ α : Type} [DecidableEq κ] (data : List α) (key : α → κ) :
    List (κ × List α) :=
  data.foldl (fun d item => dictAppend d (key item) item) []

/-- Add to the entry of a key in a counting dict
(`days_monthly[m] += days` / first insertion). -/
def dictAdd {κ : Type} [DecidableEq κ] : List (κ × ℕ) → κ → ℕ → List (κ × ℕ)
  | [], k, v => [(k, v)]
  | (k', v') :: rest, k, v =>
    if k = k' then (k', v' + v) :: rest
    else (k', v') :: dictAdd rest k v

/-- The month the per-year loop of `get_days_monthly` starts at:
`month_start if month_start and y == year_start else 1` (a `None` or `0`
bound is falsy). -/
def monthLo (month_start : Option ℕ) (year_start y : ℕ) : ℕ :=
  match month_start with
  | some v => if v ≠ 0 ∧ y = year_start then v else 1
  | none => 1

/-- The month the per-year loop of `get_days_monthly` ends at. -/
def monthHi (month_end : Option ℕ) (year_end y : ℕ) : ℕ :=
  match month_end with
  | some v => if v ≠ 0 ∧ y = year_end then v else 12
  | none => 12

/-- `render.get_days_monthly`: for each calendar month, the total number of
days that month spans over the years `year_start..year_end`, the first and
last year optionally clipped to start/end months. -/
def get_days_monthly (year_start year_end : ℕ)
    (month_start month_end : Option ℕ) : List (ℕ × ℕ) :=
  (List.range' year_start (year_end + 1 - year_start)).foldl
    (fun d y =>
      (List.range' (monthLo month_start year_start y)
          (monthHi month_end year_end y + 1 - monthLo month_start year_start y)).foldl
        (fun d' m => dictAdd d' m (daysInMonth y m)) d)
    []

/-- Run a fallible computation over a list, aborting on the first failure
(the `for m in range(1, 13)` loop with a possible `KeyError`). -/
def mapOpt {α β : Type} (f : α → Option β) : List α → Option (List β)
  | [] => some []
  | a :: t =>
    match f a, mapOpt f t with
    | some b, some bs => some (b :: bs)
    | _, _ => none

/-- One month's attendance value: `0.0` for a month with no activity dates,
`len(dates in month) / days * 100` otherwise; `none` models the `KeyError`
raised when the month has dates but no day-count entry. -/
def attValue (grouped : List (ℕ × List DateTime)) (days : List (ℕ × ℕ))
    (m : ℕ) : Option ℚ :=
  match dictFind grouped m with
  | none => some 0
  | some l =>
    match dictFind days m with
    | none => none
    | some dayCount => some ((l.length : ℚ) / (dayCount : ℚ) * 100)

/-- `render.get_attendance` with `datetime.now().year` passed in as
`this_year`: the all-time and current-year monthly attendance series;
`none` models an uncaught exception (`dts[0]` on an empty list, or a
`KeyError` from the day dict). -/
def get_attendance (this_year : ℕ) (dts : List DateTime) :
    Option (List ℚ × List ℚ) :=
  match dts with
  | [] => none
  | d0 :: rest =>
    let dts_all_monthly := groupby dts DateTime.month
    let dts_this_year := dts.filter fun d => d.year = this_year
    let dts_this_year_monthly := groupby dts_this_year DateTime.month
    let dLast := (d0 :: rest).getLast (List.cons_ne_nil _ _)
    let days_all_monthly :=
      get_days_monthly d0.year dLast.year (some d0.month) (some dLast.month)
    let days_this_year_monthly := get_days_monthly this_year this_year none none
    match mapOpt (attValue dts_all_monthly days_all_monthly) (List.range' 1 12),
        mapOpt (attValue dts_this_year_monthly days_this_year_monthly)
          (List.range' 1 12) with
    | some attendance_all, some attendance_this_year =>
      some (attendance_all, attendance_this_year)
    | _, _ => none

/-- The row tuple `render.get_running_data` accumulates:
`(dt, distance, pace seconds, start_lat, start_lng)`. -/
abbrev RunRow := DateTime × ℚ × ℤ × ℚ × ℚ

/-- The guarded coordinate read
`float(cols[i]) if len(cols) > i and cols[i].strip() else None` inside the
`try` block — `.error` is the `ValueError` its `except` turns into a row
skip. -/
def readCoord (cols : List (List Char)) (i : ℕ) : Except Unit (Option ℚ) :=
  if i < cols.length ∧ pyTruthy (pyStrip cols[i]!) then
    match pyFloat cols[i]! with
    | some v => Except.ok (some v)
    | none => Except.error ()
  else Except.ok none

/-- Lift a fallible stdlib call: `none` is an uncaught exception. -/
def tryOp {α : Type} : Option α → Except Unit α
  | some a => Except.ok a
  | none => Except.error ()

/-- One line of the loader loop in `render.get_running_data`:
`.error ()` is an uncaught exception (bad timestamp, bad distance, bad or
missing pace column, missing column index), `.ok none` a skipped line
(header, missing/invalid coordinates, non-positive distance), `.ok (some t)`
a kept row. -/
def parseCsvLine (line : List Char) : Except Unit (Option RunRow) := do
  let cols := splitOnCh ',' (pyRstrip line)
  if cols.head! = "DT".data then return none
  else
    let dt ← tryOp (strpDateTime '-' cols.head!)
    let c1 ← tryOp cols[1]?
    let distance ← tryOp (pyFloat c1)
    let c3 ← tryOp cols[3]?
    let ints ← tryOp ((splitOnCh ':' c3).mapM pyInt)
    match ints with
    | [mins0, secs0] =>
      let mins := if secs0 = 60 then mins0 + 1 else mins0
      let secs := if secs0 = 60 then 0 else secs0
      match readCoord cols 4 with
      | Except.error _ => return none
      | Except.ok latO =>
        match readCoord cols 5 with
        | Except.error _ => return none
        | Except.ok lngO =>
          match latO, lngO with
          | some lat, some lng =>
            if distance ≤ 0 then return none
            else return some (dt, distance, mins * 60 + secs, lat, lng)
          | _, _ => return none
    | _ => Except.error ()

/-- The per-record accumulation loop of `get_running_data`
(`acc += distance` and the six parallel appends). -/
def buildSeries : ℚ → List RunRow →
    List DateTime × List ℚ × List ℚ × List ℤ × List ℚ × List ℚ
  | _, [] => ([], [], [], [], [], [])
  | acc, (dt, dist, pace, lat, lng) :: rest =>
    let acc' := acc + dist
    let (ds, accs, dists, ps, lats, lngs) := buildSeries acc' rest
    (dt :: ds, acc' :: accs, dist :: dists, pace :: ps, lat :: lats, lng :: lngs)

/-- The line loop of `get_running_data`: an exception anywhere aborts the
whole loader, a skipped line contributes nothing, a kept row is appended. -/
def collectRows : List (List Char) → Option (List RunRow)
  | [] => some []
  | l :: ls =>
    match parseCsvLine l with
    | Except.error _ => none
    | Except.ok none => collectRows ls
    | Except.ok (some t) => (collectRows ls).map (t :: ·)

/-- `render.get_running_data` on the CSV file's lines: parse and filter every
line, sort the kept rows by timestamp (stable), then build the six parallel
series `(dts, accs, distances, paces, start_lats, start_lngs)`; `none`
models an uncaught exception aborting the whole loader. -/
def get_running_data (lines : List (List Char)) :
    Option (List DateTime × List ℚ × List ℚ × List ℤ × List ℚ × List ℚ) :=
  match collectRows lines with
  | none => none
  | some data =>
    let sorted := data.mergeSort (fun a b => DateTime.le a.1 b.1)
    some (buildSeries 0 sorted)

/-- `"%Y-%m"`-formatting of a year/month pair (`strftime`, zero-padded). -/
def fmtYM (y m : ℕ) : List Char :=
  padZero 4 (natChars y) ++ '-' :: padZero 2 (natChars m)

/-- `today - relativedelta(months=i)` at year/month granularity (the label
ignores the day). -/
def monthSub (ty tm i : ℕ) : ℕ × ℕ :=
  let idx := ty * 12 + (tm - 1) - i
  (idx / 12, idx % 12 + 1)

/-- The 12 `"YYYY-MM"` labels generated for the trailing window, oldest
first. -/
def last12Labels (ty tm : ℕ) : List (List Char) :=
  (List.range 12).map fun k =>
    let p := monthSub ty tm (11 - k)
    fmtYM p.1 p.2

/-- `render.get_last_12_months_distances` with `datetime.now()`'s year and
month passed in: 12 `(label, summed distance)` pairs, a label with no
matching records keeping its initial `0.0`. -/
def get_last_12_months_distances (ty tm : ℕ) (dts : List DateTime)
    (distances : List ℚ) : List (List Char × ℚ) :=
  let init := (last12Labels ty tm).map fun ym => (ym, (0 : ℚ))
  let monthly := groupby (dts.zip distances) fun x => fmtYM x.1.year x.1.month
  (last12Labels ty tm).foldl
    (fun cur ym =>
      match dictFind monthly ym with
      | none => cur
      | some l =>
        let total := (l.map Prod.snd).sum
        cur.map fun p => (p.1, if p.1 = ym then total else p.2))
    init

deriving instance DecidableEq for Except

/-! ## Helper lemmas -/

theorem pyRound_floor_or (q : ℚ) : pyRound q = ⌊q⌋ ∨ pyRound q = ⌊q⌋ + 1 := by
  unfold pyRound
  split
  · exact Or.inl rfl
  · split
    · exact Or.inr rfl
    · split
      · exact Or.inl rfl
      · exact Or.inr rfl

theorem pyRound_nonneg {q : ℚ} (h : 0 ≤ q) : 0 ≤ pyRound q := by
  have hf : (0 : ℤ) ≤ ⌊q⌋ := Int.le_floor.mpr (by exact_mod_cast h)
  rcases pyRound_floor_or q with h' | h' <;> omega

/-! ## Claim theorems -/

/-- C9: a well-formed history-export row with distance token `"5.0"` and
moving-time token `"25:30"` parses to a Record with `distance_m = 5000.0`
and pace `"5:06"`; in general `calculate_pace` yields the `"M:SS"` rendering
of `round(moving_time_s / (distance_m / 1000))` seconds per kilometre, and
yields no pace when distance or moving time is zero. -/
theorem claim_C9 :
    ((parse_mi_line 100000
        "Morning 5.0 25:30 2023-01-02 07:00:00 China null 6.0".data).map
        (fun r => (r.distance, r.pace)) = some (5000, some "5:06".data)) ∧
    (∀ d t : ℚ, 0 < d → 0 < t → ∃ M S : ℕ,
      calculate_pace d t = some (natChars M ++ ':' :: padZero 2 (natChars S)) ∧
      (M : ℤ) * 60 + (S : ℤ) = pyRound (t / (d / 1000)) ∧ S < 60) ∧
    (∀ d t : ℚ, d = 0 ∨ t = 0 → calculate_pace d t = none) := by
  refine ⟨?_, ?_, ?_⟩
  · have hw : pyWords "Morning 5.0 25:30 2023-01-02 07:00:00 China null 6.0".data =
        ["Morning".data, "5.0".data, "25:30".data, "2023-01-02".data,
         "07:00:00".data, "China".data, "null".data, "6.0".data] := by decide
    have hf : pyFloat "5.0".data = some 5 := by
      rw [pyFloat, show floatShape "5.0".data = some (false, 5, 0, 1) from by decide]
      norm_num
    have hd : pyRound1 ((5 : ℚ) * 1000) = 5000 := by
      have : ((5 : ℚ) * 1000) * 10 = ((50000 : ℤ) : ℚ) := by norm_num
      rw [pyRound1, this]
      simp only [pyRound]
      norm_num [Int.floor_intCast]
    have hmt : parseMovingTime "25:30".data = 1530 := by decide
    have hp : calculate_pace 5000 ((1530 : ℤ) : ℚ) = some "5:06".data := by
      have h306 : ((1530 : ℤ) : ℚ) / ((5000 : ℚ) / 1000) = ((306 : ℤ) : ℚ) := by
        norm_num
      rw [calculate_pace, if_neg (by norm_num), h306]
      simp only [pyRound]
      norm_num [Int.floor_intCast]
      decide
    simp only [parse_mi_line, hw]
    norm_num
    rw [show pyFloat ['5', '.', '0'] = some 5 from hf]
    refine ⟨_, rfl, ?_, ?_⟩
    · exact hd
    · rw [show parseMovingTime ['2', '5', ':', '3', '0'] = 1530 from hmt,
        show pyRound1 ((5 : ℚ) * 1000) = 5000 from hd]
      exact hp
  · intro d t hd ht
    have hd0 : ¬(d = 0 ∨ t = 0) := by
      push_neg
      constructor <;> positivity
    set T := pyRound (t / (d / 1000)) with hT
    have hq : (0 : ℚ) ≤ t / (d / 1000) := by positivity
    have hTnn : 0 ≤ T := pyRound_nonneg hq
    have hdivnn : 0 ≤ T.fdiv 60 := Int.fdiv_nonneg hTnn (by norm_num)
    have hmodnn : 0 ≤ T.fmod 60 := Int.fmod_nonneg hTnn (by norm_num)
    have hmodlt : T.fmod 60 < 60 := Int.fmod_lt_of_pos T (by norm_num)
    refine ⟨(T.fdiv 60).natAbs, (T.fmod 60).natAbs, ?_, ?_, ?_⟩
    · rw [calculate_pace, if_neg hd0]
      simp only [pyDivMod, ← hT]
      rw [intChars, if_neg (by omega)]
    · rw [Int.natAbs_of_nonneg hdivnn, Int.natAbs_of_nonneg hmodnn]
      have := Int.fdiv_add_fmod T 60
      omega
    · omega
  · intro d t h
    rw [calculate_pace, if_pos h]

theorem claim_C9_witness :
    (∃ M S : ℕ, calculate_pace 5000 1530 =
        some (natChars M ++ ':' :: padZero 2 (natChars S)) ∧
      (M : ℤ) * 60 + (S : ℤ) = pyRound ((1530 : ℚ) / (5000 / 1000)) ∧ S < 60) ∧
    calculate_pace 0 5 = none :=
  ⟨claim_C9.2.1 5000 1530 (by norm_num) (by norm_num),
   claim_C9.2.2 0 5 (Or.inl rfl)⟩

/-! ## Sample records for concrete statements -/

/-- A record with zero distance and hence no pace, as the history adapter
would produce for a `0.0`-distance row. -/
def recZero : Record :=
  { run_id := 100000
    name := "x".data
    distance := 0
    moving_time := 0
    elapsed_time := 0
    activity_type := "Run".data
    start_date := "2024-01-02 07:00:00".data
    start_date_local := "2024-01-02 07:00:00".data
    location_country := none
    average_heartrate := none
    pace := none
    source := "mi".data }

/-- What `export_csv` writes for the zero-distance record: a header row and
a data row `DT, "0.00", 120, "-"`. -/
theorem export_csv_recZero :
    export_csv [recZero] =
      some [csvHeader,
        ["2024-01-02 07:00:00".data, "0.00".data, "120".data, ['-']]] := by
  have hz : fmtFixed2 ((if recZero.distance = 0 then 0 else recZero.distance) / 1000)
      = "0.00".data := by
    show fmtFixed2 ((if (0 : ℚ) = 0 then 0 else 0) / 1000) = "0.00".data
    rw [if_pos rfl]
    rw [show (0 : ℚ) / 1000 = ((0 : ℤ) : ℚ) by norm_num]
    simp only [fmtFixed2]
    rw [show ((0 : ℤ) : ℚ) * 100 = ((0 : ℤ) : ℚ) by norm_num]
    simp only [pyRound, Int.floor_intCast]
    norm_num
    decide
  rw [export_csv, if_neg (by decide)]
  simp only [List.map, csvRow, hz]
  decide

/-- C7 counterexample: the export of a concrete record is a two-row table
whose header is the four columns `DT, distance(Km), heart, pace` — there is
no six-column header and no `start_lat`/`start_lng` column. -/
theorem claim_C7_counterexample :
    export_csv [recZero] =
      some [csvHeader,
        ["2024-01-02 07:00:00".data, "0.00".data, "120".data, ['-']]] ∧
    csvHeader =
      ["DT".data, "distance(Km)".data, "heart".data, "pace".data] ∧
    csvHeader.length = 4 := ⟨export_csv_recZero, rfl, rfl⟩

/-- Every two-digit zero-padded block is two digit characters. -/
theorem twoDigitShape : ∀ b < 100, (padZero 2 (natChars b)).length = 2 ∧
    (padZero 2 (natChars b)).all Char.isDigit = true := by decide

/-- The `distance_Km` field always ends in a dot followed by exactly two
digit characters. -/
theorem fmtFixed2_shape (q : ℚ) : ∃ ip fp, fmtFixed2 q = ip ++ '.' :: fp ∧
    fp.length = 2 ∧ fp.all Char.isDigit = true := by
  refine ⟨(if pyRound (q * 100) < 0 then ['-'] else []) ++
      natChars ((pyRound (q * 100)).natAbs / 100),
    padZero 2 (natChars ((pyRound (q * 100)).natAbs % 100)), ?_, ?_, ?_⟩
  · simp only [fmtFixed2, List.append_assoc]
  · exact (twoDigitShape _ (Nat.mod_lt _ (by norm_num))).1
  · exact (twoDigitShape _ (Nat.mod_lt _ (by norm_num))).2

/-- C7 (amended): for a non-empty record list the export is a header row
followed by one row per record; the header has the four columns
`DT, distance(Km), heart, pace` (no `start_lat`/`start_lng` columns); each
data row holds the record's timestamp string, its distance in km as a
fixed-point string with two decimal places, the constant heart placeholder
`120`, and the record's pace string or the sentinel `"-"`.  (An empty record
list produces no output at all, header included.) -/
theorem claim_C7_amended (records : List Record) (h : records ≠ []) :
    export_csv records = some (csvHeader :: records.map csvRow) ∧
    csvHeader = ["DT".data, "distance(Km)".data, "heart".data, "pace".data] ∧
    export_csv [] = none ∧
    ∀ r ∈ records,
      csvRow r = [recDateStr r,
        fmtFixed2 ((if r.distance = 0 then 0 else r.distance) / 1000),
        natChars 120, pyOrOptStr r.pace ['-']] ∧
      (csvRow r).length = 4 ∧
      (∃ ip fp, fmtFixed2 ((if r.distance = 0 then 0 else r.distance) / 1000) =
        ip ++ '.' :: fp ∧ fp.length = 2 ∧ fp.all Char.isDigit = true) ∧
      ((∃ p, r.pace = some p ∧ pyOrOptStr r.pace ['-'] = p) ∨
        pyOrOptStr r.pace ['-'] = ['-']) := by
  refine ⟨?_, rfl, rfl, ?_⟩
  · rw [export_csv, if_neg (by simp [h])]
  · intro r _
    refine ⟨rfl, rfl, fmtFixed2_shape _, ?_⟩
    rcases hp : r.pace with _ | p
    · exact Or.inr (by simp [pyOrOptStr])
    · by_cases ht : pyTruthy p = true
      · exact Or.inl ⟨p, rfl, by simp [pyOrOptStr, pyOrStr, ht]⟩
      · exact Or.inr (by simp [pyOrOptStr, pyOrStr, ht])

theorem claim_C7_witness :
    export_csv [recZero] = some (csvHeader :: [recZero].map csvRow) :=
  (claim_C7_amended [recZero] (by simp)).1

/-! ## Loader lemmas shared by the exclusion claims -/

theorem collectRows_append (l1 l2 : List (List Char)) :
    collectRows (l1 ++ l2) =
      match collectRows l1, collectRows l2 with
      | some a, some b => some (a ++ b)
      | _, _ => none := by
  induction l1 with
  | nil =>
    cases h2 : collectRows l2 <;> simp [collectRows, h2]
  | cons l ls ih =>
    simp only [List.cons_append, collectRows, List.append_eq]
    cases hp : parseCsvLine l with
    | error e => rfl
    | ok o =>
      cases o with
      | none => exact ih
      | some t =>
        rw [ih]
        cases h1 : collectRows ls <;> cases h2 : collectRows l2 <;> simp

/-- A line the loop skips contributes nothing to the loader's result. -/
theorem get_running_data_skip (l1 l2 : List (List Char)) (line : List Char)
    (h : parseCsvLine line = Except.ok none) :
    get_running_data (l1 ++ line :: l2) = get_running_data (l1 ++ l2) := by
  have : collectRows (line :: l2) = collectRows l2 := by
    simp [collectRows, h]
  rw [get_running_data, get_running_data, collectRows_append, this,
    ← collectRows_append]

/-- A line that raises aborts the whole loader. -/
theorem get_running_data_error (l1 l2 : List (List Char)) (line : List Char)
    (h : parseCsvLine line = Except.error ()) :
    get_running_data (l1 ++ line :: l2) = none := by
  have : collectRows (line :: l2) = none := by
    simp [collectRows, h]
  rw [get_running_data, collectRows_append, this]
  cases collectRows l1 <;> rfl

theorem readCoord_some {cols : List (List Char)} {i : ℕ} {v : ℚ}
    (h : readCoord cols i = Except.ok (some v)) :
    i < cols.length ∧ pyFloat cols[i]! = some v := by
  rw [readCoord] at h
  split at h
  · rename_i hc
    split at h
    · rename_i v' hv
      cases h
      exact ⟨hc.1, hv⟩
    · cases h
  · cases h

theorem exbind_ok {α β : Type} (a : α) (f : α → Except Unit β) :
    (Except.ok a >>= f) = f a := rfl

theorem exbind_err {α β : Type} (f : α → Except Unit β) :
    ((Except.error () : Except Unit α) >>= f) = Except.error () := rfl

/-- Anatomy of a kept row: the distance came from column 1 and is positive,
and both coordinates came from columns 4 and 5 as parsed floats. -/
theorem parseCsvLine_kept {line : List Char} {t : RunRow}
    (h : parseCsvLine line = Except.ok (some t)) :
    ∃ c1 : List Char,
      (splitOnCh ',' (pyRstrip line))[1]? = some c1 ∧
      pyFloat c1 = some t.2.1 ∧ 0 < t.2.1 ∧
      4 < (splitOnCh ',' (pyRstrip line)).length ∧
      5 < (splitOnCh ',' (pyRstrip line)).length ∧
      pyFloat ((splitOnCh ',' (pyRstrip line))[4]!) = some t.2.2.2.1 ∧
      pyFloat ((splitOnCh ',' (pyRstrip line))[5]!) = some t.2.2.2.2 := by
  simp only [parseCsvLine] at h
  by_cases hhd : (splitOnCh ',' (pyRstrip line)).head! = "DT".data
  · rw [if_pos hhd] at h; simp [pure, Except.pure] at h
  · rw [if_neg hhd] at h
    cases hdt : strpDateTime '-' (splitOnCh ',' (pyRstrip line)).head! with
    | none => rw [hdt] at h; simp [tryOp, exbind_err] at h
    | some dt =>
    rw [hdt] at h; rw [show tryOp (some dt) = Except.ok dt from rfl, exbind_ok] at h
    cases hc1 : (splitOnCh ',' (pyRstrip line))[1]? with
    | none => rw [hc1] at h; simp [tryOp, exbind_err] at h
    | some c1 =>
    rw [hc1] at h; rw [show tryOp (some c1) = Except.ok c1 from rfl, exbind_ok] at h
    cases hpf : pyFloat c1 with
    | none => rw [hpf] at h; simp [tryOp, exbind_err] at h
    | some dist =>
    rw [hpf] at h; rw [show tryOp (some dist) = Except.ok dist from rfl, exbind_ok] at h
    cases hc3 : (splitOnCh ',' (pyRstrip line))[3]? with
    | none => rw [hc3] at h; simp [tryOp, exbind_err] at h
    | some c3 =>
    rw [hc3] at h; rw [show tryOp (some c3) = Except.ok c3 from rfl, exbind_ok] at h
    cases hmi : (splitOnCh ':' c3).mapM pyInt with
    | none => rw [hmi] at h; simp [tryOp, exbind_err] at h
    | some ints =>
    rw [hmi] at h
    rw [show tryOp (some ints) = Except.ok ints from rfl, exbind_ok] at h
    rcases ints with _ | ⟨m0, _ | ⟨s0, _ | ⟨x, rest⟩⟩⟩
    · simp [pure, Except.pure] at h
    · simp [pure, Except.pure] at h
    · dsimp only at h
      cases hlat : readCoord (splitOnCh ',' (pyRstrip line)) 4 with
      | error e => rw [hlat] at h; simp [pure, Except.pure] at h
      | ok latO =>
      rw [hlat] at h
      cases hlng : readCoord (splitOnCh ',' (pyRstrip line)) 5 with
      | error e => rw [hlng] at h; simp [pure, Except.pure] at h
      | ok lngO =>
      rw [hlng] at h
      cases latO with
      | none => cases lngO <;> simp [pure, Except.pure] at h
      | some lat =>
      cases lngO with
      | none => simp [pure, Except.pure] at h
      | some lng =>
      dsimp only at h
      by_cases hdle : dist ≤ 0
      · rw [if_pos hdle] at h; simp [pure, Except.pure] at h
      · rw [if_neg hdle] at h
        simp only [pure, Except.pure, Except.ok.injEq, Option.some.injEq] at h
        subst h
        obtain ⟨h4len, h4f⟩ := readCoord_some hlat
        obtain ⟨h5len, h5f⟩ := readCoord_some hlng
        exact ⟨c1, rfl, hpf, by linarith, h4len, h5len, h4f, h5f⟩
    · simp [pure, Except.pure] at h

/-- C1 counterexample: the pipeline's exporter does write a row for a
zero-distance record — the export of `recZero` (distance 0) is a header row
plus a data row for that record. -/
theorem claim_C1_counterexample :
    recZero.distance ≤ 0 ∧
    export_csv [recZero] =
      some [csvHeader,
        ["2024-01-02 07:00:00".data, "0.00".data, "120".data, ['-']]] :=
  ⟨le_refl 0, export_csv_recZero⟩

/-- C1 (amended): a CSV row whose distance field parses to a value `≤ 0`
contributes to no statistical series — the loader either skips it (leaving
every derived series exactly as if the row were absent) or aborts with no
output at all; every row the loader keeps has positive distance.  The
tabular CSV export, however, does contain a row for a `distance_m ≤ 0`
record. -/
theorem claim_C1_amended :
    (∀ (l1 l2 : List (List Char)) (line : List Char) (d : ℚ),
      pyFloat (((splitOnCh ',' (pyRstrip line))[1]?).getD []) = some d →
      d ≤ 0 →
      get_running_data (l1 ++ line :: l2) = none ∨
      get_running_data (l1 ++ line :: l2) = get_running_data (l1 ++ l2)) ∧
    (∀ (line : List Char) (t : RunRow),
      parseCsvLine line = Except.ok (some t) → 0 < t.2.1) ∧
    (recZero.distance ≤ 0 ∧
      export_csv [recZero] =
        some [csvHeader,
          ["2024-01-02 07:00:00".data, "0.00".data, "120".data, ['-']]]) := by
  refine ⟨?_, ?_, le_refl 0, export_csv_recZero⟩
  · intro l1 l2 line d hf hd
    cases hp : parseCsvLine line with
    | error e =>
      cases e
      exact Or.inl (get_running_data_error l1 l2 line hp)
    | ok o =>
      cases o with
      | none => exact Or.inr (get_running_data_skip l1 l2 line hp)
      | some t =>
        exfalso
        obtain ⟨c1, hc1, hpf, hpos, _⟩ := parseCsvLine_kept hp
        rw [hc1, Option.getD_some, hpf] at hf
        rw [Option.some.injEq] at hf
        rw [← hf] at hd
        linarith
  · intro line t h
    obtain ⟨_, _, _, hpos, _⟩ := parseCsvLine_kept h
    exact hpos

theorem claim_C1_witness :
    get_running_data
        ["2024-01-02 07:00:00,0.00,120,5:06,39.9,116.4".data] = none ∨
    get_running_data
        ["2024-01-02 07:00:00,0.00,120,5:06,39.9,116.4".data] =
      get_running_data [] := by
  have hf : pyFloat (((splitOnCh ','
      (pyRstrip "2024-01-02 07:00:00,0.00,120,5:06,39.9,116.4".data))[1]?).getD [])
      = some 0 := by
    rw [show (((splitOnCh ','
      (pyRstrip "2024-01-02 07:00:00,0.00,120,5:06,39.9,116.4".data))[1]?).getD [])
      = "0.00".data from by decide]
    rw [pyFloat, show floatShape "0.00".data = some (false, 0, 0, 2) from by decide]
    norm_num
  exact claim_C1_amended.1 [] []
    "2024-01-02 07:00:00,0.00,120,5:06,39.9,116.4".data 0 hf (le_refl 0)

/-- C8: the derived-metric pipeline does raise on its own edge cases.  The
exporter writes `"-"` for an absent pace (zero distance / zero moving
time), yet feeding the exporter's own two CSV lines back to the statistics
loader aborts with an uncaught exception (`int("-")` raises before any
coordinate or distance filtering), modelled as `none`; and the attendance
computation on an empty ledger likewise raises (`dts[0]` on an empty
list). -/
theorem claim_C8 :
    (export_csv [recZero] =
        some [csvHeader,
          ["2024-01-02 07:00:00".data, "0.00".data, "120".data, ['-']]] ∧
      get_running_data [joinCh ',' csvHeader,
        joinCh ','
          ["2024-01-02 07:00:00".data, "0.00".data, "120".data, ['-']]] =
        none) ∧
    get_attendance 2025 [] = none := by
  refine ⟨⟨export_csv_recZero, ?_⟩, rfl⟩
  rfl

/-! ## Character-class and round-trip lemmas for the export/loader bridge -/

theorem natCharsAux_digits : ∀ (fuel n : ℕ) (acc : List Char),
    (∀ c ∈ acc, c.isDigit = true) → ∀ c ∈ natCharsAux fuel n acc, c.isDigit = true := by
  intro fuel
  induction fuel with
  | zero => intro n acc hacc c hc; exact hacc c hc
  | succ f ih =>
    intro n acc hacc c hc
    rw [natCharsAux] at hc
    split at hc
    · rename_i hn
      rcases List.mem_cons.mp hc with rfl | hmem
      · interval_cases n <;> decide
      · exact hacc c hmem
    · refine ih (n / 10) _ ?_ c hc
      intro c' hc'
      rcases List.mem_cons.mp hc' with rfl | hm
      · have h10 : n % 10 < 10 := Nat.mod_lt _ (by norm_num)
        revert h10
        generalize n % 10 = k
        intro h10
        interval_cases k <;> decide
      · exact hacc c' hm

theorem natChars_digits (n : ℕ) : ∀ c ∈ natChars n, c.isDigit = true :=
  natCharsAux_digits _ _ _ (by simp)

theorem natCharsAux_suffix : ∀ (fuel n : ℕ) (acc : List Char),
    ∃ pre, natCharsAux fuel n acc = pre ++ acc := by
  intro fuel
  induction fuel with
  | zero => exact fun n acc => ⟨[], rfl⟩
  | succ f ih =>
    intro n acc
    rw [natCharsAux]
    split
    · exact ⟨[Char.ofNat ('0'.toNat + n)], rfl⟩
    · obtain ⟨pre, hpre⟩ := ih (n / 10) (Char.ofNat ('0'.toNat + n % 10) :: acc)
      exact ⟨pre ++ [Char.ofNat ('0'.toNat + n % 10)], by
        rw [hpre, List.append_assoc]
        rfl⟩

theorem natChars_ne_nil (n : ℕ) : natChars n ≠ [] := by
  rw [natChars, natCharsAux]
  split
  · simp
  · obtain ⟨pre, hpre⟩ := natCharsAux_suffix n (n / 10)
      (Char.ofNat ('0'.toNat + n % 10) :: [])
    rw [hpre]
    simp

theorem isDigit_not_comma {c : Char} (h : c.isDigit = true) : c ≠ ',' := by
  intro hc
  subst hc
  exact absurd h (by decide)

theorem isDigit_not_space {c : Char} (h : c.isDigit = true) :
    isPySpace c = false := by
  have h1 : c ≠ ' ' := by intro hc; subst hc; exact absurd h (by decide)
  have h2 : c ≠ '\t' := by intro hc; subst hc; exact absurd h (by decide)
  have h3 : c ≠ '\n' := by intro hc; subst hc; exact absurd h (by decide)
  have h4 : c ≠ '\x0d' := by intro hc; subst hc; exact absurd h (by decide)
  have h5 : c ≠ '\x0b' := by intro hc; subst hc; exact absurd h (by decide)
  have h6 : c ≠ '\x0c' := by intro hc; subst hc; exact absurd h (by decide)
  simp [isPySpace, h1, h2, h3, h4, h5, h6]

/-- Every character of a `"%.2f"` rendering is a digit, a dot or a minus. -/
theorem fmtFixed2_chars {q : ℚ} {c : Char} (hc : c ∈ fmtFixed2 q) :
    c.isDigit = true ∨ c = '.' ∨ c = '-' := by
  simp only [fmtFixed2, List.mem_append, List.mem_cons] at hc
  rcases hc with (hs | hn) | hd | hp
  · right; right
    revert hs
    split <;> simp_all
  · exact Or.inl (natChars_digits _ _ hn)
  · exact Or.inr (Or.inl hd)
  · simp only [padZero, List.mem_append, List.mem_replicate] at hp
    rcases hp with ⟨_, rfl⟩ | hp
    · exact Or.inl (by decide)
    · exact Or.inl (natChars_digits _ _ hp)

theorem fmtFixed2_no_comma (q : ℚ) : ',' ∉ fmtFixed2 q := by
  intro hc
  rcases fmtFixed2_chars hc with h | h | h
  · exact isDigit_not_comma h rfl
  · cases h
  · cases h

theorem fmtFixed2_no_space {q : ℚ} {c : Char} (hc : c ∈ fmtFixed2 q) :
    isPySpace c = false := by
  rcases fmtFixed2_chars hc with h | h | h
  · exact isDigit_not_space h
  · subst h; decide
  · subst h; decide

theorem pyRstrip_eq_self {cs : List Char}
    (h : ∀ a, cs.getLast? = some a → isPySpace a = false) : pyRstrip cs = cs := by
  unfold pyRstrip
  cases hr : cs.reverse with
  | nil =>
    have : cs = [] := by simpa using congrArg List.reverse hr
    simp [this]
  | cons a rest =>
    have ha : isPySpace a = false := by
      apply h
      rw [← List.head?_reverse, hr]
      rfl
    rw [List.dropWhile_cons_of_neg (by simp [ha]), ← hr, List.reverse_reverse]

theorem pyStrip_eq_self {cs : List Char}
    (h : ∀ c ∈ cs, isPySpace c = false) : pyStrip cs = cs := by
  unfold pyStrip
  rw [pyRstrip_eq_self (fun a ha => h a (List.mem_of_mem_getLast? (by simp [ha])))]
  cases cs with
  | nil => rfl
  | cons c t =>
    exact List.dropWhile_cons_of_neg (by simp [h c (List.mem_cons_self c t)])

theorem splitOnCh_not_mem {sep : Char} {cs : List Char} (h : sep ∉ cs) :
    splitOnCh sep cs = [cs] := by
  induction cs with
  | nil => rfl
  | cons c t ih =>
    have hc : ¬c = sep := fun hc => h (hc ▸ List.mem_cons_self c t)
    rw [splitOnCh]
    simp only [if_neg hc, ih (fun hm => h (List.mem_cons_of_mem _ hm))]

theorem splitOnCh_append {sep : Char} {f t : List Char} (h : sep ∉ f) :
    splitOnCh sep (f ++ sep :: t) = f :: splitOnCh sep t := by
  induction f with
  | nil => simp [splitOnCh]
  | cons c f' ih =>
    have hc : ¬c = sep := fun hc => h (hc ▸ List.mem_cons_self c f')
    have ihh : splitOnCh sep (f' ++ sep :: t) = f' :: splitOnCh sep t :=
      ih fun hm => h (List.mem_cons_of_mem _ hm)
    rw [List.cons_append]
    simp only [splitOnCh, if_neg hc, ihh]

theorem joinCh_split {sep : Char} : ∀ {fields : List (List Char)},
    fields ≠ [] → (∀ f ∈ fields, sep ∉ f) →
    splitOnCh sep (joinCh sep fields) = fields
  | [], hne, _ => absurd rfl hne
  | [f], _, h => by
    rw [joinCh, splitOnCh_not_mem (h f (List.mem_cons_self f []))]
  | f :: g :: rest, _, h => by
    rw [show joinCh sep (f :: g :: rest) = f ++ sep :: joinCh sep (g :: rest)
        from rfl,
      splitOnCh_append (h f (List.mem_cons_self f (g :: rest))),
      joinCh_split (by simp) (fun x hx => h x (List.mem_cons_of_mem _ hx))]

theorem allDigits_of_digits {cs : List Char} (hne : cs ≠ [])
    (h : ∀ c ∈ cs, c.isDigit = true) : allDigits cs = true := by
  have he : cs.isEmpty = false := by
    cases cs with
    | nil => exact absurd rfl hne
    | cons a t => rfl
  rw [allDigits, he]
  simp only [Bool.not_false, Bool.true_and, List.all_eq_true]
  exact h

theorem padZero_digits {w : ℕ} {cs : List Char}
    (h : ∀ c ∈ cs, c.isDigit = true) :
    ∀ c ∈ padZero w cs, c.isDigit = true := by
  intro c hc
  rcases List.mem_append.mp hc with hr | hm
  · obtain ⟨_, rfl⟩ := List.mem_replicate.mp hr
    decide
  · exact h c hm

theorem dot_not_mem_digits {cs : List Char}
    (h : ∀ c ∈ cs, c.isDigit = true) : '.' ∉ cs := by
  intro hm
  exact absurd (h _ hm) (by decide)

/-- A `"%.2f"` rendering always parses back with `float()`. -/
theorem pyFloat_fmtFixed2 (q : ℚ) : ∃ v, pyFloat (fmtFixed2 q) = some v := by
  have hstrip : pyStrip (fmtFixed2 q) = fmtFixed2 q :=
    pyStrip_eq_self fun c hc => fmtFixed2_no_space hc
  have hAdig := natChars_digits ((pyRound (q * 100)).natAbs / 100)
  have hAne := natChars_ne_nil ((pyRound (q * 100)).natAbs / 100)
  have hPdig : ∀ c ∈ padZero 2 (natChars ((pyRound (q * 100)).natAbs % 100)),
      c.isDigit = true :=
    padZero_digits (natChars_digits _)
  have hPne : padZero 2 (natChars ((pyRound (q * 100)).natAbs % 100)) ≠ [] := by
    rw [padZero]
    intro hnil
    rcases List.append_eq_nil.mp hnil with ⟨_, h2⟩
    exact natChars_ne_nil _ h2
  have hbody : splitOnCh '.'
      (natChars ((pyRound (q * 100)).natAbs / 100) ++
        '.' :: padZero 2 (natChars ((pyRound (q * 100)).natAbs % 100))) =
      [natChars ((pyRound (q * 100)).natAbs / 100),
        padZero 2 (natChars ((pyRound (q * 100)).natAbs % 100))] := by
    rw [splitOnCh_append (dot_not_mem_digits hAdig),
      splitOnCh_not_mem (dot_not_mem_digits hPdig)]
  have hshape : ∃ t, floatShape (fmtFixed2 q) = some t := by
    rw [floatShape, hstrip]
    by_cases hneg : pyRound (q * 100) < 0
    · rw [show fmtFixed2 q = '-' ::
          (natChars ((pyRound (q * 100)).natAbs / 100) ++
            '.' :: padZero 2 (natChars ((pyRound (q * 100)).natAbs % 100)))
          from by rw [fmtFixed2]; simp [hneg]]
      rw [show splitSign ('-' ::
          (natChars ((pyRound (q * 100)).natAbs / 100) ++
            '.' :: padZero 2 (natChars ((pyRound (q * 100)).natAbs % 100)))) =
          (true, natChars ((pyRound (q * 100)).natAbs / 100) ++
            '.' :: padZero 2 (natChars ((pyRound (q * 100)).natAbs % 100)))
          from by rw [splitSign]; simp]
      dsimp only
      rw [hbody]
      simp [allDigits_of_digits hAne hAdig, allDigits_of_digits hPne hPdig]
    · rw [show fmtFixed2 q =
          natChars ((pyRound (q * 100)).natAbs / 100) ++
            '.' :: padZero 2 (natChars ((pyRound (q * 100)).natAbs % 100))
          from by rw [fmtFixed2]; simp [hneg]]
      cases hA : natChars ((pyRound (q * 100)).natAbs / 100) with
      | nil => exact absurd hA hAne
      | cons a as =>
        have ha : a.isDigit = true := by
          apply hAdig
          rw [hA]
          exact List.mem_cons_self a as
        have ha1 : ¬a = '-' := by
          intro hh
          subst hh
          exact absurd ha (by decide)
        have ha2 : ¬a = '+' := by
          intro hh
          subst hh
          exact absurd ha (by decide)
        rw [List.cons_append, show splitSign (a :: (as ++
            '.' :: padZero 2 (natChars ((pyRound (q * 100)).natAbs % 100)))) =
            (false, a :: (as ++
            '.' :: padZero 2 (natChars ((pyRound (q * 100)).natAbs % 100))))
            from by rw [splitSign]; simp [ha1, ha2]]
        dsimp only
        rw [← List.cons_append, ← hA, hbody]
        simp [allDigits_of_digits hAne hAdig, allDigits_of_digits hPne hPdig]
  obtain ⟨t, ht⟩ := hshape
  exact ⟨_, by rw [pyFloat, ht]; rfl⟩

theorem pyOrOptStr_ne_nil (o : Option (List Char)) : pyOrOptStr o ['-'] ≠ [] := by
  cases o with
  | none => simp [pyOrOptStr]
  | some s =>
    simp only [pyOrOptStr, pyOrStr]
    split
    · rename_i ht
      rw [pyTruthy, Bool.not_eq_true', List.isEmpty_eq_false] at ht
      exact ht
    · simp

theorem getLast?_cons_of_ne {c : Char} {l : List Char} (h : l ≠ []) :
    (c :: l).getLast? = l.getLast? := by
  rw [show c :: l = [c] ++ l from rfl, List.getLast?_append_of_ne_nil _ h]

/-- The loader skips every data row the exporter writes (the row has only
four columns, so the coordinate guard fails), provided the row parses up to
that guard: the timestamp is in the canonical format, the pace field is two
`:`-separated ints, and neither contains a comma (the pace field also free
of trailing whitespace). -/
theorem parseCsvLine_export_row (r : Record)
    (hdt : (strpDateTime '-' (recDateStr r)).isSome = true)
    (hpace : ∃ a b : ℤ,
      (splitOnCh ':' (pyOrOptStr r.pace ['-'])).mapM pyInt = some [a, b])
    (hdc : ',' ∉ recDateStr r)
    (hpc : ',' ∉ pyOrOptStr r.pace ['-'])
    (hpw : ∀ c ∈ pyOrOptStr r.pace ['-'], isPySpace c = false) :
    parseCsvLine (joinCh ',' (csvRow r)) = Except.ok none := by
  have hDne : pyOrOptStr r.pace ['-'] ≠ [] := pyOrOptStr_ne_nil r.pace
  have hjoin : joinCh ',' (csvRow r) =
      recDateStr r ++ ',' ::
        (fmtFixed2 ((if r.distance = 0 then 0 else r.distance) / 1000) ++ ',' ::
          (natChars 120 ++ ',' :: pyOrOptStr r.pace ['-'])) := rfl
  have hlast : pyRstrip (joinCh ',' (csvRow r)) = joinCh ',' (csvRow r) := by
    apply pyRstrip_eq_self
    intro a ha
    rw [hjoin, List.getLast?_append_of_ne_nil _ (by simp),
      getLast?_cons_of_ne (by simp [hDne]),
      List.getLast?_append_of_ne_nil _ (by simp),
      getLast?_cons_of_ne (by simp [hDne]),
      List.getLast?_append_of_ne_nil _ (by simp [hDne]),
      getLast?_cons_of_ne hDne] at ha
    exact hpw a (List.mem_of_mem_getLast? (by simp [ha]))
  have hcols : splitOnCh ',' (pyRstrip (joinCh ',' (csvRow r))) = csvRow r := by
    rw [hlast]
    apply joinCh_split (by simp [csvRow])
    intro f hf
    simp only [csvRow, List.mem_cons, List.not_mem_nil, or_false] at hf
    rcases hf with rfl | rfl | rfl | rfl
    · exact hdc
    · exact fmtFixed2_no_comma _
    · decide
    · exact hpc
  simp only [parseCsvLine, hcols]
  by_cases hd0 : recDateStr r = "DT".data
  · rw [show (csvRow r).head! = recDateStr r from rfl, if_pos hd0]
    rfl
  · rw [show (csvRow r).head! = recDateStr r from rfl, if_neg hd0]
    obtain ⟨dt, hdtv⟩ := Option.isSome_iff_exists.mp hdt
    rw [hdtv, show tryOp (some dt) = Except.ok dt from rfl, exbind_ok]
    rw [show (csvRow r)[1]? =
        some (fmtFixed2 ((if r.distance = 0 then 0 else r.distance) / 1000))
        from rfl]
    rw [show tryOp (some (fmtFixed2
        ((if r.distance = 0 then 0 else r.distance) / 1000))) =
        Except.ok (fmtFixed2 ((if r.distance = 0 then 0 else r.distance) / 1000))
        from rfl, exbind_ok]
    obtain ⟨v, hv⟩ :=
      pyFloat_fmtFixed2 ((if r.distance = 0 then 0 else r.distance) / 1000)
    rw [hv, show tryOp (some v) = Except.ok v from rfl, exbind_ok]
    rw [show (csvRow r)[3]? = some (pyOrOptStr r.pace ['-']) from rfl]
    rw [show tryOp (some (pyOrOptStr r.pace ['-'])) =
        Except.ok (pyOrOptStr r.pace ['-']) from rfl, exbind_ok]
    obtain ⟨a, b, hab⟩ := hpace
    rw [hab, show tryOp (some [a, b]) = Except.ok [a, b] from rfl, exbind_ok]
    dsimp only
    rw [show readCoord (csvRow r) 4 = Except.ok none from by
      rw [readCoord, if_neg (by simp [csvRow])]]
    dsimp only
    rw [show readCoord (csvRow r) 5 = Except.ok none from by
      rw [readCoord, if_neg (by simp [csvRow])]]
    rfl

/-- C10: a loader row contributes to the returned series only if both the
`start_lat` and `start_lng` columns are present and parse as floats; a row
missing either coordinate is dropped from all statistics without affecting
the rest; the pipeline's own exporter writes only four columns; and feeding
the exporter's own CSV back to the loader therefore yields empty series
(every data row is dropped at the coordinate guard). -/
theorem claim_C10 :
    (∀ (line : List Char) (t : RunRow),
      parseCsvLine line = Except.ok (some t) →
      4 < (splitOnCh ',' (pyRstrip line)).length ∧
      5 < (splitOnCh ',' (pyRstrip line)).length ∧
      pyFloat ((splitOnCh ',' (pyRstrip line))[4]!) = some t.2.2.2.1 ∧
      pyFloat ((splitOnCh ',' (pyRstrip line))[5]!) = some t.2.2.2.2) ∧
    (∀ (l1 l2 : List (List Char)) (line : List Char),
      parseCsvLine line = Except.ok none →
      get_running_data (l1 ++ line :: l2) = get_running_data (l1 ++ l2)) ∧
    (∀ (records : List Record) (rows : List (List (List Char))),
      export_csv records = some rows → ∀ row ∈ rows, row.length = 4) ∧
    (∀ (records : List Record) (rows : List (List (List Char))),
      export_csv records = some rows →
      (∀ r ∈ records,
        (strpDateTime '-' (recDateStr r)).isSome = true ∧
        (∃ a b : ℤ,
          (splitOnCh ':' (pyOrOptStr r.pace ['-'])).mapM pyInt = some [a, b]) ∧
        ',' ∉ recDateStr r ∧ ',' ∉ pyOrOptStr r.pace ['-'] ∧
        (∀ c ∈ pyOrOptStr r.pace ['-'], isPySpace c = false)) →
      get_running_data (rows.map (joinCh ',')) =
        some ([], [], [], [], [], [])) := by
  have hexp : ∀ (records : List Record) (rows : List (List (List Char))),
      export_csv records = some rows → rows = csvHeader :: records.map csvRow := by
    intro records rows h
    rw [export_csv] at h
    split at h
    · cases h
    · rw [Option.some.injEq] at h
      exact h.symm
  refine ⟨?_, ?_, ?_, ?_⟩
  · intro line t h
    obtain ⟨c1, _, _, _, h4, h5, hf4, hf5⟩ := parseCsvLine_kept h
    exact ⟨h4, h5, hf4, hf5⟩
  · exact get_running_data_skip
  · intro records rows h row hrow
    rw [hexp records rows h] at hrow
    rcases List.mem_cons.mp hrow with rfl | hm
    · rfl
    · obtain ⟨r, _, rfl⟩ := List.mem_map.mp hm
      rfl
  · intro records rows h hh
    rw [hexp records rows h]
    have hdata : ∀ recs : List Record,
        (∀ r ∈ recs,
          (strpDateTime '-' (recDateStr r)).isSome = true ∧
          (∃ a b : ℤ,
            (splitOnCh ':' (pyOrOptStr r.pace ['-'])).mapM pyInt = some [a, b]) ∧
          ',' ∉ recDateStr r ∧ ',' ∉ pyOrOptStr r.pace ['-'] ∧
          (∀ c ∈ pyOrOptStr r.pace ['-'], isPySpace c = false)) →
        collectRows (recs.map fun r => joinCh ',' (csvRow r)) = some [] := by
      intro recs
      induction recs with
      | nil => intro _; rfl
      | cons r rest ih =>
        intro hh'
        obtain ⟨h1, h2, h3, h4, h5⟩ := hh' r (List.mem_cons_self r rest)
        simp only [List.map_cons, collectRows,
          parseCsvLine_export_row r h1 h2 h3 h4 h5]
        exact ih fun x hx => hh' x (List.mem_cons_of_mem _ hx)
    rw [get_running_data, List.map_cons, List.map_map]
    have hhead : parseCsvLine (joinCh ',' csvHeader) = Except.ok none := by rfl
    rw [show collectRows (joinCh ',' csvHeader ::
        List.map (joinCh ',' ∘ csvRow) records) =
        collectRows (List.map (joinCh ',' ∘ csvRow) records) from by
      rw [collectRows, hhead]]
    rw [show List.map (joinCh ',' ∘ csvRow) records =
        records.map fun r => joinCh ',' (csvRow r) from rfl, hdata records hh]
    dsimp only
    rw [List.mergeSort_nil]
    rfl

/-- A record whose exported row the loader can fully parse (canonical
timestamp, numeric pace). -/
def recPace : Record :=
  { run_id := 100001
    name := "y".data
    distance := 5000
    moving_time := 1530
    elapsed_time := 1530
    activity_type := "Run".data
    start_date := "2024-01-03 07:00:00".data
    start_date_local := "2024-01-03 07:00:00".data
    location_country := none
    average_heartrate := none
    pace := some "5:06".data
    source := "mi".data }

theorem claim_C10_witness :
    get_running_data ((csvHeader :: [recPace].map csvRow).map (joinCh ',')) =
      some ([], [], [], [], [], []) := by
  apply claim_C10.2.2.2 [recPace]
  · rw [export_csv, if_neg (by simp)]
  · intro r hr
    rcases List.mem_singleton.mp hr with rfl
    refine ⟨by decide, ⟨5, 6, by decide⟩, by decide, by decide, by decide⟩

/-! ## The reconciler's total order (C2, C3) -/

theorem mergeLe_trans (iso : List Char → Option DateTime) :
    ∀ a b c : Record,
      keyLe (mergeKey iso a) (mergeKey iso b) = true →
      keyLe (mergeKey iso b) (mergeKey iso c) = true →
      keyLe (mergeKey iso a) (mergeKey iso c) = true :=
  fun _ _ _ h1 h2 => keyLe_trans h1 h2

theorem mergeLe_total (iso : List Char → Option DateTime) :
    ∀ a b : Record,
      (keyLe (mergeKey iso a) (mergeKey iso b) ||
        keyLe (mergeKey iso b) (mergeKey iso a)) = true := by
  intro a b
  rcases keyLe_total (mergeKey iso a) (mergeKey iso b) with h | h <;> simp [h]

/-- C2: `parse_datetime_safe` tries the four explicit formats in order with
the generic ISO fallback last (first success wins, an empty string parses to
nothing), and the Ledger `merge_and_write` produces is ordered so that every
dated record precedes every undated one, dated records ascend by parsed
timestamp and undated ones ascend by id — for any ISO fallback `iso` and
any adapter outputs. -/
theorem claim_C2 (iso : List Char → Option DateTime) (mi strava : List Record) :
    (∀ s : List Char, parse_datetime_safe iso s =
      if s.isEmpty then none
      else (strpDateTime '-' s).orElse fun _ =>
        (strpDateTime '/' s).orElse fun _ =>
          (strpDateOnly '-' s).orElse fun _ =>
            (strpDateOnly '/' s).orElse fun _ => iso s) ∧
    List.Pairwise (fun a b =>
      ((parse_datetime_safe iso (recDateStr b)).isSome = true →
        (parse_datetime_safe iso (recDateStr a)).isSome = true) ∧
      (∀ da db, parse_datetime_safe iso (recDateStr a) = some da →
        parse_datetime_safe iso (recDateStr b) = some db →
        DateTime.le da db = true) ∧
      (parse_datetime_safe iso (recDateStr a) = none →
        parse_datetime_safe iso (recDateStr b) = none →
        a.run_id ≤ b.run_id))
      (merge_and_write iso mi strava) := by
  constructor
  · intro s
    rw [parse_datetime_safe]
    by_cases hs : s.isEmpty
    · rw [if_pos hs, if_pos hs]
    · rw [if_neg hs, if_neg hs]
      cases strpDateTime '-' s with
      | some d => rfl
      | none =>
        cases strpDateTime '/' s with
        | some d => rfl
        | none =>
          cases strpDateOnly '-' s with
          | some d => rfl
          | none =>
            cases strpDateOnly '/' s with
            | some d => rfl
            | none => rfl
  · have hP := List.sorted_mergeSort
      (mergeLe_trans iso) (mergeLe_total iso) (mi ++ strava)
    rw [merge_and_write]
    refine hP.imp ?_
    intro a b h
    cases hpa : parse_datetime_safe iso (recDateStr a) with
    | some da =>
      cases hpb : parse_datetime_safe iso (recDateStr b) with
      | some db =>
        rw [show mergeKey iso a = Sum.inl da from by rw [mergeKey, hpa],
          show mergeKey iso b = Sum.inl db from by rw [mergeKey, hpb]] at h
        refine ⟨fun _ => rfl, ?_, fun hna => by cases hna⟩
        intro da' db' hda hdb
        cases hda
        cases hdb
        exact h
      | none =>
        refine ⟨fun hsb => by simp at hsb, ?_, fun hna => by cases hna⟩
        intro da' db' _ hdb
        cases hdb
    | none =>
      cases hpb : parse_datetime_safe iso (recDateStr b) with
      | some db =>
        rw [show mergeKey iso a = Sum.inr a.run_id from by rw [mergeKey, hpa],
          show mergeKey iso b = Sum.inl db from by rw [mergeKey, hpb]] at h
        simp [keyLe] at h
      | none =>
        rw [show mergeKey iso a = Sum.inr a.run_id from by rw [mergeKey, hpa],
          show mergeKey iso b = Sum.inr b.run_id from by rw [mergeKey, hpb]] at h
        refine ⟨fun hsb => hsb, ?_, ?_⟩
        · intro da' db' hda _
          cases hda
        · intro _ _
          simp only [keyLe, decide_eq_true_eq] at h
          exact h

theorem claim_C2_witness :
    parse_datetime_safe isoModel "2023-01-02 07:00:00".data =
      strpDateTime '-' "2023-01-02 07:00:00".data := by
  rw [(claim_C2 isoModel [] []).1 "2023-01-02 07:00:00".data]
  decide

/-- A history-adapter record dated 2023-01-01 00:00:00 with the offset id. -/
def recMiTie : Record :=
  { run_id := 100000
    name := "a".data
    distance := 0
    moving_time := 0
    elapsed_time := 0
    activity_type := "Run".data
    start_date := "2023-01-01 00:00:00".data
    start_date_local := "2023-01-01 00:00:00".data
    location_country := none
    average_heartrate := none
    pace := none
    source := "mi".data }

/-- A remote-adapter record with the same timestamp but native id 555. -/
def recStravaTie : Record :=
  { run_id := 555
    name := "b".data
    distance := 0
    moving_time := 0
    elapsed_time := 0
    activity_type := "Run".data
    start_date := "2023-01-01 00:00:00".data
    start_date_local := "2023-01-01 00:00:00".data
    location_country := none
    average_heartrate := none
    pace := none
    source := "strava".data }

/-- C3 counterexample: two distinct records with equal parsed timestamps
keep their input order under the stable sort, so swapping the adapter-call
order changes the Ledger ordering. -/
theorem claim_C3_counterexample :
    merge_and_write isoModel [recMiTie] [recStravaTie] ≠
      merge_and_write isoModel [recStravaTie] [recMiTie] := by
  have h1 : merge_and_write isoModel [recMiTie] [recStravaTie] =
      [recMiTie, recStravaTie] := by
    rw [merge_and_write]
    exact List.mergeSort_of_sorted (by decide)
  have h2 : merge_and_write isoModel [recStravaTie] [recMiTie] =
      [recStravaTie, recMiTie] := by
    rw [merge_and_write]
    exact List.mergeSort_of_sorted (by decide)
  rw [h1, h2]
  decide

/-- Two sorted lists that are permutations of each other and whose keys are
pairwise distinct are equal. -/
theorem sorted_perm_eq_of_distinct {α κ : Type} (k : α → κ) (kle : κ → κ → Bool)
    (hanti : ∀ x y, kle x y = true → kle y x = true → x = y) :
    ∀ (l1 l2 : List α), l1.Perm l2 →
      List.Pairwise (fun a b => kle (k a) (k b) = true) l1 →
      List.Pairwise (fun a b => kle (k a) (k b) = true) l2 →
      List.Pairwise (fun a b => k a ≠ k b) l1 →
      l1 = l2
  | [], l2, hp, _, _, _ => (hp.symm.eq_nil).symm
  | a :: t1, [], hp, _, _, _ => absurd hp.eq_nil (by simp)
  | a :: t1, b :: t2, hp, hs1, hs2, hne => by
    by_cases hab : a = b
    · subst hab
      exact congrArg (a :: ·)
        (sorted_perm_eq_of_distinct k kle hanti t1 t2 hp.cons_inv
          hs1.of_cons hs2.of_cons hne.of_cons)
    · exfalso
      have hb1 : b ∈ a :: t1 := hp.symm.subset (List.mem_cons_self b t2)
      have hb1' : b ∈ t1 := by
        rcases List.mem_cons.mp hb1 with hh | hh
        · exact absurd hh.symm hab
        · exact hh
      have ha2 : a ∈ b :: t2 := hp.subset (List.mem_cons_self a t1)
      have ha2' : a ∈ t2 := by
        rcases List.mem_cons.mp ha2 with hh | hh
        · exact absurd hh hab
        · exact hh
      have h1 : kle (k a) (k b) = true := (List.pairwise_cons.mp hs1).1 b hb1'
      have h2 : kle (k b) (k a) = true := (List.pairwise_cons.mp hs2).1 a ha2'
      exact (List.pairwise_cons.mp hne).1 b hb1' (hanti _ _ h1 h2)

/-- C3 (amended): `merge_and_write` is a pure function, so re-merging
identical adapter outputs in the same call order yields an identical
ordering; and when no two records of the combined inputs share a sort key
(in particular, no two distinct dated records tie on parsed timestamp),
merging in either adapter-call order produces the identical Ledger
ordering.  (With tied keys the stable sort preserves input order, so the
orderings can differ — see the counterexample.) -/
theorem claim_C3_amended (iso : List Char → Option DateTime)
    (mi strava : List Record)
    (hdist : List.Pairwise (fun a b => mergeKey iso a ≠ mergeKey iso b)
      (mi ++ strava)) :
    merge_and_write iso mi strava = merge_and_write iso strava mi ∧
    merge_and_write iso mi strava = merge_and_write iso mi strava := by
  refine ⟨?_, rfl⟩
  rw [merge_and_write, merge_and_write]
  apply sorted_perm_eq_of_distinct (mergeKey iso) keyLe
    (fun x y h1 h2 => keyLe_antisymm h1 h2)
  · exact ((List.mergeSort_perm (mi ++ strava) _).trans
      List.perm_append_comm).trans (List.mergeSort_perm (strava ++ mi) _).symm
  · exact List.sorted_mergeSort (mergeLe_trans iso) (mergeLe_total iso) _
  · exact List.sorted_mergeSort (mergeLe_trans iso) (mergeLe_total iso) _
  · exact ((List.mergeSort_perm (mi ++ strava) _).pairwise_iff
      (fun hxy => hxy ∘ Eq.symm)).mpr hdist

theorem claim_C3_witness :
    merge_and_write isoModel [recMiTie] [recPace] =
      merge_and_write isoModel [recPace] [recMiTie] :=
  (claim_C3_amended isoModel [recMiTie] [recPace] (by decide)).1

/-! ## Dict closed forms for the attendance machinery -/

theorem dictFind_dictAppend {κ α : Type} [DecidableEq κ]
    (d : List (κ × List α)) (k : κ) (a : α) (k2 : κ) :
    dictFind (dictAppend d k a) k2 =
      if k2 = k then some ((dictFind d k).getD [] ++ [a]) else dictFind d k2 := by
  induction d with
  | nil =>
    by_cases h : k2 = k <;> simp [dictAppend, dictFind, h]
  | cons kv rest ih =>
    obtain ⟨k', l⟩ := kv
    rw [dictAppend]
    by_cases hkk : k = k'
    · subst hkk
      by_cases h2 : k2 = k <;> simp [dictFind, h2, if_pos rfl]
    · rw [if_neg hkk]
      by_cases h2 : k2 = k'
      · subst h2
        have : ¬k2 = k := fun h => hkk h.symm
        simp [dictFind, this]
      · simp only [dictFind, if_neg h2, ih]
        by_cases h3 : k2 = k
        · subst h3
          simp [dictFind, if_neg (fun h => hkk h), h2]
        · simp [h3]

theorem dictFind_groupby_aux {κ α : Type} [DecidableEq κ] [DecidableEq α]
    (key : α → κ) :
    ∀ (data : List α) (d : List (κ × List α)) (k : κ),
    dictFind (data.foldl (fun d item => dictAppend d (key item) item) d) k =
      match dictFind d k with
      | some l0 => some (l0 ++ data.filter (fun x => key x = k))
      | none =>
        if data.filter (fun x => key x = k) = [] then none
        else some (data.filter (fun x => key x = k))
  | [], d, k => by
    cases h : dictFind d k <;> simp [h]
  | x :: xs, d, k => by
    rw [List.foldl_cons, dictFind_groupby_aux key xs (dictAppend d (key x) x) k,
      dictFind_dictAppend, List.filter_cons]
    by_cases hx : key x = k
    · rw [hx, if_pos rfl]
      cases h : dictFind d k with
      | some l0 => simp [h]
      | none => simp [h]
    · rw [if_neg (fun h => hx h.symm)]
      simp [hx]

/-- Closed form of `groupby` lookup: the group of `k` is the filter of the
data at key `k`, absent when that filter is empty. -/
theorem dictFind_groupby {κ α : Type} [DecidableEq κ] [DecidableEq α]
    (data : List α) (key : α → κ) (k : κ) :
    dictFind (groupby data key) k =
      if data.filter (fun x => key x = k) = [] then none
      else some (data.filter (fun x => key x = k)) := by
  rw [groupby, dictFind_groupby_aux key data [] k]
  rfl

theorem dictFind_dictAdd {κ : Type} [DecidableEq κ]
    (d : List (κ × ℕ)) (k : κ) (v : ℕ) (k2 : κ) :
    dictFind (dictAdd d k v) k2 =
      if k2 = k then some ((dictFind d k).getD 0 + v) else dictFind d k2 := by
  induction d with
  | nil =>
    by_cases h : k2 = k <;> simp [dictAdd, dictFind, h]
  | cons kv rest ih =>
    obtain ⟨k', v'⟩ := kv
    rw [dictAdd]
    by_cases hkk : k = k'
    · subst hkk
      by_cases h2 : k2 = k <;> simp [dictFind, h2, if_pos rfl]
    · rw [if_neg hkk]
      by_cases h2 : k2 = k'
      · subst h2
        have : ¬k2 = k := fun h => hkk h.symm
        simp [dictFind, this]
      · simp only [dictFind, if_neg h2, ih]
        by_cases h3 : k2 = k
        · subst h3
          simp [dictFind, if_neg (fun h => hkk h), h2]
        · simp [h3]

theorem dictFind_addAll_aux : ∀ (kvs : List (ℕ × ℕ)) (d : List (ℕ × ℕ)) (k : ℕ),
    dictFind (kvs.foldl (fun d kv => dictAdd d kv.1 kv.2) d) k =
      match dictFind d k with
      | some v0 => some (v0 + ((kvs.filter (fun kv => kv.1 = k)).map Prod.snd).sum)
      | none =>
        if kvs.filter (fun kv => kv.1 = k) = [] then none
        else some (((kvs.filter (fun kv => kv.1 = k)).map Prod.snd).sum)
  | [], d, k => by
    cases h : dictFind d k <;> simp [h]
  | kv :: kvs, d, k => by
    obtain ⟨k1, v1⟩ := kv
    rw [List.foldl_cons, dictFind_addAll_aux kvs (dictAdd d k1 v1) k,
      dictFind_dictAdd]
    by_cases hx : k1 = k
    · have hf : List.filter (fun kv => decide (kv.1 = k)) ((k1, v1) :: kvs) =
          (k1, v1) :: List.filter (fun kv => decide (kv.1 = k)) kvs := by
        simp [List.filter_cons, hx]
      rw [hf, hx, if_pos rfl]
      cases h : dictFind d k with
      | some v0 =>
        simp [h]
        omega
      | none => simp [h]
    · have hf : List.filter (fun kv => decide (kv.1 = k)) ((k1, v1) :: kvs) =
          List.filter (fun kv => decide (kv.1 = k)) kvs := by
        simp [List.filter_cons, hx]
      rw [hf, if_neg (fun h => hx h.symm)]

theorem foldl_year_flat {β : Type} (g : β → List (ℕ × ℕ)) :
    ∀ (ys : List β) (d : List (ℕ × ℕ)),
    ys.foldl (fun d y => (g y).foldl (fun d' kv => dictAdd d' kv.1 kv.2) d) d =
      (ys.flatMap g).foldl (fun d kv => dictAdd d kv.1 kv.2) d
  | [], _ => rfl
  | y :: ys, d => by
    rw [List.foldl_cons, List.flatMap_cons, List.foldl_append,
      foldl_year_flat g ys]

theorem flatMap_if_singleton {β γ : Type} (p : β → Bool) (g : β → γ) :
    ∀ l : List β,
      (l.flatMap fun y => if p y then [g y] else []) = (l.filter p).map g
  | [] => rfl
  | y :: ys => by
    rw [List.flatMap_cons, List.filter_cons, flatMap_if_singleton p g ys]
    by_cases hp : p y = true
    · simp [hp]
    · simp [hp]

theorem filter_eq_nodup : ∀ {l : List ℕ}, l.Nodup → ∀ k : ℕ,
    l.filter (fun x => x = k) = if k ∈ l then [k] else []
  | [], _, k => by simp
  | x :: xs, hnd, k => by
    rw [List.filter_cons, filter_eq_nodup (List.Nodup.of_cons hnd) k]
    by_cases hx : x = k
    · subst hx
      have hxn : x ∉ xs := (List.nodup_cons.mp hnd).1
      simp [hxn]
    · have hiff : k ∈ x :: xs ↔ k ∈ xs := by
        simp only [List.mem_cons]
        constructor
        · rintro (rfl | h)
          · exact absurd rfl hx
          · exact h
        · exact Or.inr
      simp [hx, hiff]

theorem flatMap_congr {β γ : Type} {l : List β} {f g : β → List γ}
    (h : ∀ y ∈ l, f y = g y) : l.flatMap f = l.flatMap g := by
  induction l with
  | nil => rfl
  | cons y ys ih =>
    rw [List.flatMap_cons, List.flatMap_cons, h y (List.mem_cons_self y ys),
      ih fun x hx => h x (List.mem_cons_of_mem _ hx)]

theorem get_days_monthly_flat (ys ye : ℕ) (ms me : Option ℕ) :
    get_days_monthly ys ye ms me =
      ((List.range' ys (ye + 1 - ys)).flatMap fun y =>
        (List.range' (monthLo ms ys y)
          (monthHi me ye y + 1 - monthLo ms ys y)).map
          fun m => (m, daysInMonth y m)).foldl
        (fun d kv => dictAdd d kv.1 kv.2) [] := by
  rw [get_days_monthly]
  have hfun : (fun (d : List (ℕ × ℕ)) y =>
      (List.range' (monthLo ms ys y)
        (monthHi me ye y + 1 - monthLo ms ys y)).foldl
        (fun d' m => dictAdd d' m (daysInMonth y m)) d) =
      fun (d : List (ℕ × ℕ)) y =>
        ((List.range' (monthLo ms ys y)
          (monthHi me ye y + 1 - monthLo ms ys y)).map
          fun m => (m, daysInMonth y m)).foldl
          (fun d kv => dictAdd d kv.1 kv.2) d := by
    funext d y
    rw [List.foldl_map]
  rw [hfun, foldl_year_flat]

/-- Closed form of the day-count dict: month `k` is present iff some year
of the range covers it, and its value is the sum of that month's lengths
over the covering years. -/
theorem dictFind_days (ys ye : ℕ) (ms me : Option ℕ) (k : ℕ) :
    dictFind (get_days_monthly ys ye ms me) k =
      if ((List.range' ys (ye + 1 - ys)).filter
          fun y => monthLo ms ys y ≤ k ∧ k ≤ monthHi me ye y) = [] then none
      else some ((((List.range' ys (ye + 1 - ys)).filter
          fun y => monthLo ms ys y ≤ k ∧ k ≤ monthHi me ye y).map
          fun y => daysInMonth y k).sum) := by
  rw [get_days_monthly_flat, dictFind_addAll_aux,
    show dictFind ([] : List (ℕ × ℕ)) k = (none : Option ℕ) from rfl]
  dsimp only
  have hstep : ∀ y : ℕ, ((List.range' (monthLo ms ys y)
      (monthHi me ye y + 1 - monthLo ms ys y)).map
        (fun m => (m, daysInMonth y m))).filter (fun kv => kv.1 = k) =
      if (decide (monthLo ms ys y ≤ k ∧ k ≤ monthHi me ye y)) = true then
        [(k, daysInMonth y k)] else [] := by
    intro y
    rw [List.filter_map,
      show ((fun kv : ℕ × ℕ => decide (kv.1 = k)) ∘
        fun m => (m, daysInMonth y m)) = fun m => decide (m = k) from rfl,
      filter_eq_nodup (List.nodup_range' _ _)]
    by_cases hc : monthLo ms ys y ≤ k ∧ k ≤ monthHi me ye y
    · rw [if_pos (List.mem_range'_1.mpr (by omega)),
        if_pos (by simp only [decide_eq_true_eq]; exact hc)]
      rfl
    · rw [if_neg (fun hm => hc (by
          have := List.mem_range'_1.mp hm
          omega)),
        if_neg (by simp only [decide_eq_true_eq]; exact hc)]
      rfl
  have hfil : ((List.range' ys (ye + 1 - ys)).flatMap fun y =>
      (List.range' (monthLo ms ys y)
        (monthHi me ye y + 1 - monthLo ms ys y)).map
        fun m => (m, daysInMonth y m)).filter (fun kv => kv.1 = k) =
      ((List.range' ys (ye + 1 - ys)).filter
        fun y => monthLo ms ys y ≤ k ∧ k ≤ monthHi me ye y).map
        fun y => (k, daysInMonth y k) := by
    rw [List.filter_flatMap,
      flatMap_congr fun y _ => hstep y,
      flatMap_if_singleton]
  rw [hfil]
  by_cases hz : ((List.range' ys (ye + 1 - ys)).filter
      fun y => monthLo ms ys y ≤ k ∧ k ≤ monthHi me ye y) = []
  · rw [if_pos (by rw [hz]; rfl), if_pos hz]
  · rw [if_neg (by simp only [List.map_eq_nil_iff]; exact hz), if_neg hz,
      List.map_map]
    rfl

/-! ## Attendance closed forms (render.get_attendance) -/

/-- The day-count denominator `get_attendance` uses for month `m`: the sum of
`daysInMonth y m` over the years of the history range whose clipped month
window covers `m` (first year clipped below at `m0`, last year clipped above
at `m1`). -/
def daysSpan (y0 m0 y1 m1 m : ℕ) : ℕ :=
  (((List.range' y0 (y1 + 1 - y0)).filter
    (fun y => monthLo (some m0) y0 y ≤ m ∧ m ≤ monthHi (some m1) y1 y)).map
    (fun y => daysInMonth y m)).sum

/-- The all-time attendance value `get_attendance` computes for month `m`
(closed form derived from the code): the number of RECORDS falling in month
`m` over the spanned days, times 100; `0` for a month with no records. -/
def attAllForm (d0 : DateTime) (rest : List DateTime) (m : ℕ) : ℚ :=
  if (d0 :: rest).filter (fun d => d.month = m) = [] then 0
  else (((d0 :: rest).filter (fun d => d.month = m)).length : ℚ) /
    (daysSpan d0.year d0.month (rest.getLastD d0).year
      (rest.getLastD d0).month m : ℚ) * 100

/-- The current-year attendance value `get_attendance` computes for month
`m` (closed form derived from the code). -/
def attThisForm (ty : ℕ) (d0 : DateTime) (rest : List DateTime) (m : ℕ) : ℚ :=
  if ((d0 :: rest).filter (fun d => d.year = ty)).filter
      (fun d => d.month = m) = [] then 0
  else ((((d0 :: rest).filter (fun d => d.year = ty)).filter
      (fun d => d.month = m)).length : ℚ) / (daysInMonth ty m : ℚ) * 100

/-- Modelled from the spec (claim C4): the number of distinct activity DAYS
falling in calendar month `m`. -/
def distinctDaysInMonth (dts : List DateTime) (m : ℕ) : ℕ :=
  ((dts.filter (fun d => d.month = m)).map
    (fun d => (d.year, d.month, d.day))).dedup.length

theorem natLexLe_refl : ∀ x : List ℕ, natLexLe x x = true
  | [] => rfl
  | _ :: as => natLexLe_cons.mpr (Or.inr ⟨rfl, natLexLe_refl as⟩)

theorem sorted_head_le {d0 : DateTime} {rest : List DateTime}
    (hsort : List.Pairwise (fun a b => DateTime.le a b = true) (d0 :: rest)) :
    ∀ d ∈ d0 :: rest, DateTime.le d0 d = true := by
  intro d hd
  rcases List.mem_cons.mp hd with rfl | hdt
  · exact natLexLe_refl _
  · exact (List.pairwise_cons.mp hsort).1 d hdt

theorem sorted_le_last : ∀ (d0 : DateTime) (rest : List DateTime),
    List.Pairwise (fun a b => DateTime.le a b = true) (d0 :: rest) →
    ∀ d ∈ d0 :: rest, DateTime.le d (rest.getLastD d0) = true
  | _, [], _, d, hd => by
    rcases List.mem_singleton.mp hd with rfl
    exact natLexLe_refl _
  | d0, d1 :: t, hp, d, hd => by
    rw [List.getLastD_cons]
    rcases List.mem_cons.mp hd with rfl | hdt
    · exact (List.pairwise_cons.mp hp).1 _ (List.getLastD_mem_cons t d1)
    · exact sorted_le_last d1 t (List.Pairwise.of_cons hp) d hdt

theorem le_ym {a b : DateTime} (h : DateTime.le a b = true) :
    a.year < b.year ∨ (a.year = b.year ∧ a.month ≤ b.month) := by
  rcases natLexLe_cons.mp
      (h : natLexLe (a.year :: [a.month, a.day, a.hour, a.minute, a.second])
        (b.year :: [b.month, b.day, b.hour, b.minute, b.second]) = true) with
    hy | ⟨hy, h2⟩
  · exact Or.inl hy
  · rcases natLexLe_cons.mp h2 with hm | ⟨hm, _⟩
    · exact Or.inr ⟨hy, Nat.le_of_lt hm⟩
    · exact Or.inr ⟨hy, Nat.le_of_eq hm⟩

theorem mapOpt_eq_map {α β : Type} (f : α → Option β) (v : α → β) :
    ∀ l : List α, (∀ a ∈ l, f a = some (v a)) → mapOpt f l = some (l.map v)
  | [], _ => rfl
  | a :: t, h => by
    rw [mapOpt, h a (List.mem_cons_self a t),
      mapOpt_eq_map f v t fun x hx => h x (List.mem_cons_of_mem _ hx),
      List.map_cons]

/-- Every month that holds a record of the history is covered by some year
of the clipped year range — the day-count lookup cannot raise `KeyError`. -/
theorem att_coverage {d0 : DateTime} {rest : List DateTime} {d : DateTime}
    {m : ℕ}
    (hsort : List.Pairwise (fun a b => DateTime.le a b = true) (d0 :: rest))
    (hvalid : ∀ x ∈ d0 :: rest, 1 ≤ x.month ∧ x.month ≤ 12)
    (hd : d ∈ d0 :: rest) (hm : d.month = m) :
    d.year ∈ (List.range' d0.year ((rest.getLastD d0).year + 1 - d0.year)).filter
      (fun y => monthLo (some d0.month) d0.year y ≤ m ∧
        m ≤ monthHi (some (rest.getLastD d0).month) (rest.getLastD d0).year y) := by
  have h1 := le_ym (sorted_head_le hsort d hd)
  have h2 := le_ym (sorted_le_last d0 rest hsort d hd)
  have hvd := hvalid d hd
  have hy01 : d0.year ≤ d.year := by rcases h1 with h | ⟨h, _⟩ <;> omega
  have hyL : d.year ≤ (rest.getLastD d0).year := by
    rcases h2 with h | ⟨h, _⟩ <;> omega
  rw [List.mem_filter]
  refine ⟨List.mem_range'_1.mpr (by omega), ?_⟩
  simp only [monthLo, monthHi, decide_eq_true_eq]
  constructor
  · split
    · rename_i hcond
      rcases h1 with hy | ⟨hy, hmo⟩
      · omega
      · omega
    · omega
  · split
    · rename_i hcond
      rcases h2 with hy | ⟨hy, hmo⟩
      · omega
      · omega
    · omega

theorem daysInMonth_pos (y m : ℕ) : 0 < daysInMonth y m := by
  rw [daysInMonth]
  split
  · split <;> omega
  · split <;> omega

/-- Closed form of `get_attendance` on a nonempty, chronologically sorted
list of dates with valid month fields: both series are total (no exception)
and each month's value is the corresponding closed-form expression. -/
theorem get_attendance_eq (ty : ℕ) (d0 : DateTime) (rest : List DateTime)
    (hsort : List.Pairwise (fun a b => DateTime.le a b = true) (d0 :: rest))
    (hvalid : ∀ x ∈ d0 :: rest, 1 ≤ x.month ∧ x.month ≤ 12) :
    get_attendance ty (d0 :: rest) =
      some ((List.range' 1 12).map (attAllForm d0 rest),
        (List.range' 1 12).map (attThisForm ty d0 rest)) := by
  have hall : mapOpt (attValue (groupby (d0 :: rest) DateTime.month)
      (get_days_monthly d0.year (rest.getLastD d0).year
        (some d0.month) (some (rest.getLastD d0).month))) (List.range' 1 12) =
      some ((List.range' 1 12).map (attAllForm d0 rest)) := by
    apply mapOpt_eq_map
    intro m _
    rw [attValue, dictFind_groupby]
    by_cases hz : (d0 :: rest).filter (fun d => d.month = m) = []
    · rw [if_pos hz, attAllForm, if_pos hz]
    · rw [if_neg hz]
      obtain ⟨d, hd⟩ := List.exists_mem_of_ne_nil _ hz
      have hd' := List.mem_filter.mp hd
      have hdm : d.month = m := of_decide_eq_true hd'.2
      have hcov := att_coverage hsort hvalid hd'.1 hdm
      have hfne : (List.range' d0.year ((rest.getLastD d0).year + 1 - d0.year)).filter
          (fun y => monthLo (some d0.month) d0.year y ≤ m ∧
            m ≤ monthHi (some (rest.getLastD d0).month)
              (rest.getLastD d0).year y) ≠ [] := by
        intro h
        rw [h] at hcov
        exact absurd hcov (List.not_mem_nil _)
      rw [dictFind_days, if_neg hfne]
      dsimp only
      rw [attAllForm, if_neg hz]
      rfl
  have hthis : mapOpt (attValue
      (groupby ((d0 :: rest).filter fun d => d.year = ty) DateTime.month)
      (get_days_monthly ty ty none none)) (List.range' 1 12) =
      some ((List.range' 1 12).map (attThisForm ty d0 rest)) := by
    apply mapOpt_eq_map
    intro m hm
    have hm12 : 1 ≤ m ∧ m < 13 := by
      have := List.mem_range'_1.mp hm
      omega
    rw [attValue, dictFind_groupby]
    by_cases hz : ((d0 :: rest).filter fun d => d.year = ty).filter
        (fun d => d.month = m) = []
    · rw [if_pos hz, attThisForm, if_pos hz]
    · rw [if_neg hz]
      have hyr : ty + 1 - ty = 1 := by omega
      have hfil : (List.range' ty (ty + 1 - ty)).filter
          (fun y => monthLo none ty y ≤ m ∧ m ≤ monthHi none ty y) = [ty] := by
        rw [hyr, show List.range' ty 1 = [ty] from rfl,
          List.filter_cons, List.filter_nil,
          if_pos (decide_eq_true
            (show monthLo none ty ty ≤ m ∧ m ≤ monthHi none ty ty from
              ⟨hm12.1, show m ≤ 12 by omega⟩))]
      rw [dictFind_days, if_neg (by rw [hfil]; exact List.cons_ne_nil _ _), hfil]
      dsimp only
      rw [attThisForm, if_neg hz, List.map_cons, List.map_nil,
        List.sum_cons, List.sum_nil, Nat.add_zero]
  rw [show get_attendance ty (d0 :: rest) =
      match mapOpt (attValue (groupby (d0 :: rest) DateTime.month)
          (get_days_monthly d0.year
            ((d0 :: rest).getLast (List.cons_ne_nil _ _)).year
            (some d0.month)
            (some ((d0 :: rest).getLast (List.cons_ne_nil _ _)).month)))
          (List.range' 1 12),
        mapOpt (attValue
          (groupby ((d0 :: rest).filter fun d => d.year = ty) DateTime.month)
          (get_days_monthly ty ty none none)) (List.range' 1 12) with
      | some a, some b => some (a, b)
      | _, _ => none from rfl,
    List.getLast_eq_getLastD, hall, hthis]

/-- C4: REFUTED as stated. On two records logged on the SAME day
(2023-01-05 08:00 and 09:00), the all-time attendance for January is
`2 / 31 * 100 = 200/31`: the numerator counts records, not distinct
activity days — the spec's formula with the distinct-day numerator gives
`1 / 31 * 100 = 100/31` instead. -/
theorem claim_C4_counterexample :
    (get_attendance 2023
        [⟨2023, 1, 5, 8, 0, 0⟩, ⟨2023, 1, 5, 9, 0, 0⟩]).map
        (fun p => p.1.head?) = some (some (200 / 31 : ℚ)) ∧
    distinctDaysInMonth [⟨2023, 1, 5, 8, 0, 0⟩, ⟨2023, 1, 5, 9, 0, 0⟩] 1 = 1 ∧
    daysSpan 2023 1 2023 1 1 = 31 ∧
    (200 / 31 : ℚ) ≠
      (distinctDaysInMonth [⟨2023, 1, 5, 8, 0, 0⟩, ⟨2023, 1, 5, 9, 0, 0⟩] 1 : ℚ) /
        (daysSpan 2023 1 2023 1 1 : ℚ) * 100 := by
  refine ⟨?_, by decide, by decide, ?_⟩
  · rw [get_attendance_eq 2023 ⟨2023, 1, 5, 8, 0, 0⟩ [⟨2023, 1, 5, 9, 0, 0⟩]
        (by decide) (by decide)]
    have hA : (((⟨2023, 1, 5, 8, 0, 0⟩ : DateTime) ::
        [(⟨2023, 1, 5, 9, 0, 0⟩ : DateTime)]).filter
        (fun d => d.month = 1)).length = 2 := by decide
    have hB : daysSpan (⟨2023, 1, 5, 8, 0, 0⟩ : DateTime).year
        (⟨2023, 1, 5, 8, 0, 0⟩ : DateTime).month
        (([(⟨2023, 1, 5, 9, 0, 0⟩ : DateTime)]).getLastD
          ⟨2023, 1, 5, 8, 0, 0⟩).year
        (([(⟨2023, 1, 5, 9, 0, 0⟩ : DateTime)]).getLastD
          ⟨2023, 1, 5, 8, 0, 0⟩).month 1 = 31 := by decide
    have hv : attAllForm ⟨2023, 1, 5, 8, 0, 0⟩ [⟨2023, 1, 5, 9, 0, 0⟩] 1 =
        200 / 31 := by
      rw [attAllForm, if_neg (by decide), hA, hB]
      norm_num
    dsimp only [Option.map]
    rw [show List.range' 1 12 = 1 :: List.range' 2 11 from rfl, List.map_cons,
      List.head?_cons, hv]
  · rw [show distinctDaysInMonth
        [⟨2023, 1, 5, 8, 0, 0⟩, ⟨2023, 1, 5, 9, 0, 0⟩] 1 = 1 from by decide,
      show daysSpan 2023 1 2023 1 1 = 31 from by decide]
    norm_num

/-- C4 (amended): for a nonempty chronologically sorted history with valid
month fields, the all-time attendance for month `m` is the number of
RECORDS (not distinct days: a day with several runs counts once per run)
falling in month `m`, divided by the calendar days month `m` spans across
the clipped year range, times 100, and `0` for a month with no records;
the current-year series divides the current-year record count by the
current year's month length. -/
theorem claim_C4_amended (ty : ℕ) (d0 : DateTime) (rest : List DateTime)
    (hsort : List.Pairwise (fun a b => DateTime.le a b = true) (d0 :: rest))
    (hvalid : ∀ x ∈ d0 :: rest, 1 ≤ x.month ∧ x.month ≤ 12) :
    get_attendance ty (d0 :: rest) =
      some ((List.range' 1 12).map (attAllForm d0 rest),
        (List.range' 1 12).map (attThisForm ty d0 rest)) :=
  get_attendance_eq ty d0 rest hsort hvalid

theorem claim_C4_witness :
    get_attendance 2023 [⟨2023, 1, 5, 8, 0, 0⟩, ⟨2023, 2, 6, 9, 0, 0⟩] =
      some ((List.range' 1 12).map
          (attAllForm ⟨2023, 1, 5, 8, 0, 0⟩ [⟨2023, 2, 6, 9, 0, 0⟩]),
        (List.range' 1 12).map
          (attThisForm 2023 ⟨2023, 1, 5, 8, 0, 0⟩ [⟨2023, 2, 6, 9, 0, 0⟩])) :=
  claim_C4_amended 2023 ⟨2023, 1, 5, 8, 0, 0⟩ [⟨2023, 2, 6, 9, 0, 0⟩]
    (by decide) (by decide)

/-- C5: REFUTED as stated. 32 records inside January 2023 give an all-time
January attendance of `32 / 31 * 100 = 3200/31 > 100`: the value is not
bounded by 100, because the numerator counts records and several records
can share a day. -/
theorem claim_C5_counterexample :
    (get_attendance 2023 (List.replicate 32 ⟨2023, 1, 5, 0, 0, 0⟩)).map
        (fun p => p.1.head?) = some (some (3200 / 31 : ℚ)) ∧
    ¬ ((3200 / 31 : ℚ) ≤ 100) := by
  constructor
  · rw [show List.replicate 32 (⟨2023, 1, 5, 0, 0, 0⟩ : DateTime) =
        ⟨2023, 1, 5, 0, 0, 0⟩ :: List.replicate 31 ⟨2023, 1, 5, 0, 0, 0⟩ from rfl,
      get_attendance_eq 2023 ⟨2023, 1, 5, 0, 0, 0⟩
        (List.replicate 31 ⟨2023, 1, 5, 0, 0, 0⟩) (by decide) (by decide)]
    have hA : (((⟨2023, 1, 5, 0, 0, 0⟩ : DateTime) ::
        List.replicate 31 (⟨2023, 1, 5, 0, 0, 0⟩ : DateTime)).filter
        (fun d => d.month = 1)).length = 32 := by decide
    have hB : daysSpan (⟨2023, 1, 5, 0, 0, 0⟩ : DateTime).year
        (⟨2023, 1, 5, 0, 0, 0⟩ : DateTime).month
        ((List.replicate 31 (⟨2023, 1, 5, 0, 0, 0⟩ : DateTime)).getLastD
          ⟨2023, 1, 5, 0, 0, 0⟩).year
        ((List.replicate 31 (⟨2023, 1, 5, 0, 0, 0⟩ : DateTime)).getLastD
          ⟨2023, 1, 5, 0, 0, 0⟩).month 1 = 31 := by decide
    have hv : attAllForm ⟨2023, 1, 5, 0, 0, 0⟩
        (List.replicate 31 ⟨2023, 1, 5, 0, 0, 0⟩) 1 = 3200 / 31 := by
      rw [attAllForm, if_neg (by decide), hA, hB]
      norm_num
    dsimp only [Option.map]
    rw [show List.range' 1 12 = 1 :: List.range' 2 11 from rfl, List.map_cons,
      List.head?_cons, hv]
  · norm_num

/-- C5 (amended): on a nonempty sorted history with valid month fields the
attendance computation never raises and every value of both series is
nonnegative (but NOT bounded by 100); a month whose spanned-day total is
zero is a month with no records, and its value is exactly `0`. -/
theorem claim_C5_amended (ty : ℕ) (d0 : DateTime) (rest : List DateTime)
    (hsort : List.Pairwise (fun a b => DateTime.le a b = true) (d0 :: rest))
    (hvalid : ∀ x ∈ d0 :: rest, 1 ≤ x.month ∧ x.month ≤ 12) :
    ∃ aAll aThis, get_attendance ty (d0 :: rest) = some (aAll, aThis) ∧
      (∀ v ∈ aAll, 0 ≤ v) ∧ (∀ v ∈ aThis, 0 ≤ v) ∧
      ∀ m, daysSpan d0.year d0.month (rest.getLastD d0).year
          (rest.getLastD d0).month m = 0 → attAllForm d0 rest m = 0 := by
  refine ⟨_, _, get_attendance_eq ty d0 rest hsort hvalid, ?_, ?_, ?_⟩
  · intro v hv
    obtain ⟨m, _, rfl⟩ := List.mem_map.mp hv
    rw [attAllForm]
    split
    · exact le_refl 0
    · positivity
  · intro v hv
    obtain ⟨m, _, rfl⟩ := List.mem_map.mp hv
    rw [attThisForm]
    split
    · exact le_refl 0
    · positivity
  · intro m hds
    have hz : (d0 :: rest).filter (fun d => d.month = m) = [] := by
      by_contra hzz
      obtain ⟨d, hd⟩ := List.exists_mem_of_ne_nil _ hzz
      have hd' := List.mem_filter.mp hd
      have hcov := att_coverage hsort hvalid hd'.1 (of_decide_eq_true hd'.2)
      have hpos : 0 < daysSpan d0.year d0.month (rest.getLastD d0).year
          (rest.getLastD d0).month m :=
        Nat.lt_of_lt_of_le (daysInMonth_pos d.year m)
          (List.single_le_sum (fun x _ => Nat.zero_le x) _
            (List.mem_map_of_mem (fun y => daysInMonth y m) hcov))
      omega
    rw [attAllForm, if_pos hz]

theorem claim_C5_witness :
    ∃ aAll aThis,
      get_attendance 2023 [(⟨2023, 1, 5, 8, 0, 0⟩ : DateTime)] =
        some (aAll, aThis) ∧
      (∀ v ∈ aAll, 0 ≤ v) ∧ (∀ v ∈ aThis, 0 ≤ v) ∧
      ∀ m, daysSpan (⟨2023, 1, 5, 8, 0, 0⟩ : DateTime).year
          (⟨2023, 1, 5, 8, 0, 0⟩ : DateTime).month
          (([] : List DateTime).getLastD ⟨2023, 1, 5, 8, 0, 0⟩).year
          (([] : List DateTime).getLastD ⟨2023, 1, 5, 8, 0, 0⟩).month m = 0 →
        attAllForm ⟨2023, 1, 5, 8, 0, 0⟩ [] m = 0 :=
  claim_C5_amended 2023 ⟨2023, 1, 5, 8, 0, 0⟩ [] (by decide) (by decide)

/-! ## Rolling 12-month window (render.get_last_12_months_distances) -/

/-- The effect of one label's fold step of `get_last_12_months_distances`
on a single `(label, value)` pair. -/
def updYM (monthly : List (List Char × List (DateTime × ℚ))) (ym : List Char)
    (p : List Char × ℚ) : List Char × ℚ :=
  match dictFind monthly ym with
  | none => p
  | some l => (p.1, if p.1 = ym then (l.map Prod.snd).sum else p.2)

/-- All fold steps applied in order to a single pair. -/
def updAll (monthly : List (List Char × List (DateTime × ℚ))) :
    List (List Char) → (List Char × ℚ) → List Char × ℚ
  | [], p => p
  | ym :: rest, p => updAll monthly rest (updYM monthly ym p)

theorem foldl_upd_eq_map (monthly : List (List Char × List (DateTime × ℚ))) :
    ∀ (yms : List (List Char)) (cur : List (List Char × ℚ)),
    yms.foldl (fun cur ym =>
      match dictFind monthly ym with
      | none => cur
      | some l =>
        let total := (l.map Prod.snd).sum
        cur.map fun p => (p.1, if p.1 = ym then total else p.2)) cur =
    cur.map (updAll monthly yms)
  | [], cur => by
    rw [show updAll monthly [] = fun p => p from funext fun p => rfl]
    exact (List.map_id' cur).symm
  | ym :: rest, cur => by
    rw [List.foldl_cons]
    cases hf : dictFind monthly ym with
    | none =>
      dsimp only
      rw [foldl_upd_eq_map monthly rest cur]
      refine List.map_eq_map_iff.mpr fun p _ => ?_
      rw [show updAll monthly (ym :: rest) p =
          updAll monthly rest (updYM monthly ym p) from rfl, updYM, hf]
    | some l =>
      dsimp only
      rw [foldl_upd_eq_map monthly rest _, List.map_map]
      refine List.map_eq_map_iff.mpr fun p _ => ?_
      rw [Function.comp_apply,
        show updAll monthly (ym :: rest) p =
          updAll monthly rest (updYM monthly ym p) from rfl, updYM, hf]

theorem updAll_snd (monthly : List (List Char × List (DateTime × ℚ))) :
    ∀ (yms : List (List Char)) (ym0 : List Char) (v0 : ℚ),
    updAll monthly yms (ym0, v0) =
      (ym0, if ym0 ∈ yms then
          (match dictFind monthly ym0 with
           | none => v0
           | some l => (l.map Prod.snd).sum)
        else v0)
  | [], ym0, v0 => by
    rw [updAll, if_neg (List.not_mem_nil ym0)]
  | ym :: rest, ym0, v0 => by
    rw [updAll, updYM]
    by_cases he : ym0 = ym
    · subst he
      cases hf : dictFind monthly ym0 with
      | none =>
        dsimp only
        rw [updAll_snd monthly rest ym0 v0, hf]
        dsimp only
        rw [ite_self, ite_self]
      | some l =>
        dsimp only
        rw [if_pos rfl, updAll_snd monthly rest ym0 _, hf]
        dsimp only
        rw [ite_self, if_pos (List.mem_cons_self ym0 rest)]
    · have hmem : ym0 ∈ ym :: rest ↔ ym0 ∈ rest := by
        simp only [List.mem_cons]
        constructor
        · rintro (rfl | h)
          · exact absurd rfl he
          · exact h
        · exact Or.inr
      cases hf : dictFind monthly ym with
      | none =>
        dsimp only
        rw [updAll_snd monthly rest ym0 v0]
        simp only [hmem]
      | some l =>
        dsimp only
        rw [if_neg he, updAll_snd monthly rest ym0 v0]
        simp only [hmem]

/-- Closed form of `get_last_12_months_distances`: one pair per trailing
label, whose value is the sum of the distances zipped with a date of that
label (`0` when no record matches). -/
theorem get_last12_eq (ty tm : ℕ) (dts : List DateTime) (distances : List ℚ) :
    get_last_12_months_distances ty tm dts distances =
      (last12Labels ty tm).map (fun ym => (ym,
        (((dts.zip distances).filter
          (fun x => fmtYM x.1.year x.1.month = ym)).map Prod.snd).sum)) := by
  rw [show get_last_12_months_distances ty tm dts distances =
      (last12Labels ty tm).foldl (fun cur ym =>
        match dictFind (groupby (dts.zip distances)
            fun x => fmtYM x.1.year x.1.month) ym with
        | none => cur
        | some l =>
          let total := (l.map Prod.snd).sum
          cur.map fun p => (p.1, if p.1 = ym then total else p.2))
        ((last12Labels ty tm).map fun ym => (ym, (0 : ℚ))) from rfl,
    foldl_upd_eq_map, List.map_map]
  refine List.map_eq_map_iff.mpr fun ym hym => ?_
  rw [Function.comp_apply, updAll_snd, if_pos hym, dictFind_groupby]
  by_cases hz : (dts.zip distances).filter
      (fun x => fmtYM x.1.year x.1.month = ym) = []
  · rw [if_pos hz, hz]
    rfl
  · rw [if_neg hz]

/-- C6: CONFIRMED. For any current year `≥ 1` and month in `1..12`, the
rolling aggregation returns exactly 12 `(label, distance)` pairs; the `k`-th
label is the `"YYYY-MM"` rendering of the current month minus `11 - k`
months (so the window ends at the current month, `monthSub ty tm 0 =
(ty, tm)`); consecutive labels advance by exactly one calendar month
(hence strictly ascending and covering the trailing 12 months); and the
`k`-th value is the sum of the distances whose record date carries that
label — `0` when no record matches (an empty sum). -/
theorem claim_C6 (ty tm : ℕ) (hty : 1 ≤ ty) (htm1 : 1 ≤ tm) (htm2 : tm ≤ 12)
    (dts : List DateTime) (distances : List ℚ) :
    (get_last_12_months_distances ty tm dts distances).length = 12 ∧
    monthSub ty tm 0 = (ty, tm) ∧
    (∀ k, k < 12 →
      (get_last_12_months_distances ty tm dts distances)[k]? =
        some (fmtYM (monthSub ty tm (11 - k)).1 (monthSub ty tm (11 - k)).2,
          (((dts.zip distances).filter (fun x => fmtYM x.1.year x.1.month =
            fmtYM (monthSub ty tm (11 - k)).1
              (monthSub ty tm (11 - k)).2)).map Prod.snd).sum)) ∧
    (∀ k, k + 1 < 12 →
      (monthSub ty tm (11 - (k + 1))).1 * 12 +
          (monthSub ty tm (11 - (k + 1))).2 =
        (monthSub ty tm (11 - k)).1 * 12 + (monthSub ty tm (11 - k)).2 + 1) := by
  refine ⟨?_, ?_, ?_, ?_⟩
  · rw [get_last12_eq, List.length_map, last12Labels, List.length_map,
      List.length_range]
  · simp only [monthSub]
    exact congrArg₂ Prod.mk (by omega) (by omega)
  · intro k hk
    rw [get_last12_eq, List.getElem?_map, last12Labels, List.getElem?_map,
      List.getElem?_range hk]
    rfl
  · intro k hk
    simp only [monthSub]
    omega

theorem claim_C6_witness :
    (get_last_12_months_distances 2023 5 [⟨2023, 4, 1, 0, 0, 0⟩] [3]).length
        = 12 ∧
    monthSub 2023 5 0 = (2023, 5) ∧
    (∀ k, k < 12 →
      (get_last_12_months_distances 2023 5 [⟨2023, 4, 1, 0, 0, 0⟩] [3])[k]? =
        some (fmtYM (monthSub 2023 5 (11 - k)).1 (monthSub 2023 5 (11 - k)).2,
          ((([(⟨2023, 4, 1, 0, 0, 0⟩ : DateTime)].zip [(3 : ℚ)]).filter
            (fun x => fmtYM x.1.year x.1.month =
              fmtYM (monthSub 2023 5 (11 - k)).1
                (monthSub 2023 5 (11 - k)).2)).map Prod.snd).sum)) ∧
    (∀ k, k + 1 < 12 →
      (monthSub 2023 5 (11 - (k + 1))).1 * 12 +
          (monthSub 2023 5 (11 - (k + 1))).2 =
        (monthSub 2023 5 (11 - k)).1 * 12 + (monthSub 2023 5 (11 - k)).2 + 1) :=
  claim_C6 2023 5 (by decide) (by decide) (by decide)
    [⟨2023, 4, 1, 0, 0, 0⟩] [3]
